import Mathlib

/-! Bagh-Chal rules engine: a shallow embedding of `BC3.c`.

The C program keeps its state in globals: a 5x5 `char` board, three counters and two
fixed arrays of snapshots with a top index each.  Here every global becomes a field of an
explicit state that the functions take and return.

Conventions of the embedding

* C `int` values are `Int` with exact arithmetic.  The functions compute on board
  coordinates that have passed `isValidPosition`, on counters and on stack indices, all far
  inside the range of a 32-bit `int`.  The two places that compute on unchecked input are
  `isAdjacent`, whose differences agree with C whenever `r1 - r2` and `c1 - c2` do not
  overflow, and the decrement of the typed coordinates in the turn functions, where the
  exact value of `INT_MIN - 1` is off the board just as the wrapped value is.
* An array access outside the array is undefined behaviour in C.  Array reads and writes
  are fallible (`Option`): `none` stands for an access outside the array, and a function
  that performs such an access returns `none`.
* C truth values returned by predicates (`isValidPosition`, `isAdjacent`,
  `isValidMoveGoat`, `areTigersTrapped`) are `Bool`; `int` codes with more than two
  meanings (`isValidMoveTiger`, the turn functions, `undoMove`, `redoMove`) stay `Int`.
* Console output, colours, the advisory turn timer and the save file have no effect on the
  rules and are left out.
-/

namespace BaghChal

/-! ## Constants and the board -/

/-- The macro `SIZE`, the side of the board. -/
abbrev SIZE : Int := 5

/-- The macro `EMPTY`, the character of a free cell. -/
def EMPTY : Char := '.'

/-- The macro `GOAT`, the character of a goat. -/
def GOAT : Char := 'G'

/-- The macro `TIGER`, the character of a tiger. -/
def TIGER : Char := 'T'

/-- The macro `MAX_HISTORY`, the capacity of each history stack. -/
abbrev MAX_HISTORY : Int := 100

/-- The global `char board[SIZE][SIZE]`: 25 cells of type `char`. -/
abbrev Board := Fin 5 → Fin 5 → Char

/-- The read `board[r][c]` with `int` indices; `none` when an index is outside `[0,5)`. -/
def readCell (b : Board) (r c : Int) : Option Char :=
  if h : 0 ≤ r ∧ r < 5 ∧ 0 ≤ c ∧ c < 5 then
    some (b ⟨r.toNat, by omega⟩ ⟨c.toNat, by omega⟩)
  else none

/-- The board after the assignment to one cell. -/
def setCell (b : Board) (r c : Fin 5) (v : Char) : Board :=
  fun i j => if i = r ∧ j = c then v else b i j

/-- The write `board[r][c] = v` with `int` indices; `none` when an index is outside
`[0,5)`. -/
def writeCell (b : Board) (r c : Int) (v : Char) : Option Board :=
  if h : 0 ≤ r ∧ r < 5 ∧ 0 ≤ c ∧ c < 5 then
    some (setCell b ⟨r.toNat, by omega⟩ ⟨c.toNat, by omega⟩ v)
  else none

/-- The libc function `abs` on `int`. -/
def cAbs (x : Int) : Int := if x < 0 then -x else x

/-! ## Geometry and move validation -/

/-- The function `int isValidPosition(int r, int c)`. -/
def isValidPosition (r c : Int) : Bool :=
  decide (r ≥ 0) && decide (r < SIZE) && decide (c ≥ 0) && decide (c < SIZE)

/-- The function `int isAdjacent(int r1, int c1, int r2, int c2)`. -/
def isAdjacent (r1 c1 r2 c2 : Int) : Bool :=
  let dr := cAbs (r1 - r2)
  let dc := cAbs (c1 - c2)
  decide (dr ≤ 1) && decide (dc ≤ 1) && !(decide (dr = 0) && decide (dc = 0))

/-- The function `int isValidMoveGoat(int r1, int c1, int r2, int c2)` on the board `b`. -/
def isValidMoveGoat (b : Board) (r1 c1 r2 c2 : Int) : Option Bool :=
  if !isValidPosition r1 c1 || !isValidPosition r2 c2 then some false
  else
    (readCell b r1 c1).bind fun src =>
    if src ≠ GOAT then some false
    else
      (readCell b r2 c2).bind fun dst =>
      if dst ≠ EMPTY then some false
      else some (isAdjacent r1 c1 r2 c2)

/-- The function `int isValidMoveTiger(int r1, int c1, int r2, int c2, int *capturedRow,
int *capturedCol)` on the board `b`.  The two out-parameters are passed in with the values
they hold before the call; the result is the return code (0 = Invalid, 1 = Move,
2 = Capture) with the values they hold after it. -/
def isValidMoveTiger (b : Board) (r1 c1 r2 c2 : Int) (capturedRow capturedCol : Int) :
    Option (Int × Int × Int) :=
  if !isValidPosition r1 c1 || !isValidPosition r2 c2 then some (0, capturedRow, capturedCol)
  else
    (readCell b r1 c1).bind fun src =>
    if src ≠ TIGER then some (0, capturedRow, capturedCol)
    else
      (readCell b r2 c2).bind fun dst =>
      if dst ≠ EMPTY then some (0, capturedRow, capturedCol)
      else
        let dr := r2 - r1
        let dc := c2 - c1
        if cAbs dr ≤ 1 ∧ cAbs dc ≤ 1 then some (1, capturedRow, capturedCol)
        else if (cAbs dr = 2 ∧ cAbs dc = 0) ∨ (cAbs dr = 0 ∧ cAbs dc = 2)
            ∨ (cAbs dr = 2 ∧ cAbs dc = 2) then
          let midR := r1 + Int.tdiv dr 2
          let midC := c1 + Int.tdiv dc 2
          (readCell b midR midC).bind fun mid =>
          if mid = GOAT then some (2, midR, midC)
          else some (0, capturedRow, capturedCol)
        else some (0, capturedRow, capturedCol)

/-- The cell `(r,c)` is in bounds and holds the character `x`. -/
def holds (b : Board) (r c : Int) (x : Char) : Prop := readCell b r c = some x

instance (b : Board) (r c : Int) (x : Char) : Decidable (holds b r c x) := by
  unfold holds; infer_instance


/-! ## Trap detection -/

/-- The direction tables of `areTigersTrapped` as pairs `(dr[i], dc[i])`, `i = 0 .. 7`:
N, S, E, W, NE, NW, SE, SW. -/
def directions : List (Int × Int) :=
  [(-1, 0), (1, 0), (0, 1), (0, -1), (-1, 1), (-1, -1), (1, 1), (1, -1)]

/-- The values a loop `for (int i = 0; i < n; i++)` runs through. -/
def loopRange (n : Nat) : List Int := (List.range n).map Int.ofNat

/-- The condition `isValidPosition(r, c) && board[r][c] == EMPTY`, as it stands in the
direction loop of `areTigersTrapped` and in the placement branch of `goatTurn`; the board
is read only when the position test passes. -/
def freeCell (b : Board) (r c : Int) : Option Bool :=
  if isValidPosition r c then (readCell b r c).map fun x => decide (x = EMPTY)
  else some false

/-- The condition `isValidPosition(r3, c3) && board[r3][c3] == EMPTY &&
board[r2][c2] == GOAT` of the direction loop, evaluated left to right with the
short-circuit of `&&`. -/
def jumpFree (b : Board) (r2 c2 r3 c3 : Int) : Option Bool :=
  if isValidPosition r3 c3 then
    (readCell b r3 c3).bind fun far =>
      if far = EMPTY then (readCell b r2 c2).map fun near => decide (near = GOAT)
      else some false
  else some false

/-- The direction loop of `areTigersTrapped` for the tiger at `(r,c)`, run over the
remaining directions; the result is the final value of `canMove`. -/
def canMoveLoop (b : Board) (r c : Int) : List (Int × Int) → Option Bool
  | [] => some false
  | d :: rest =>
    let r2 := r + d.1
    let c2 := c + d.2
    let r3 := r + d.1 * 2
    let c3 := c + d.2 * 2
    (freeCell b r2 c2).bind fun s =>
      if s then some true
      else (jumpFree b r2 c2 r3 c3).bind fun j =>
        if j then some true else canMoveLoop b r c rest

/-- The body of the two cell loops of `areTigersTrapped` at `(r,c)`, on the pair
`(tigersFound, tigersTrapped)`. -/
def scanCell (b : Board) (r : Int) (acc : Int × Int) (c : Int) : Option (Int × Int) :=
  (readCell b r c).bind fun x =>
    if x = TIGER then
      (canMoveLoop b r c directions).map fun canMove =>
        (acc.1 + 1, if canMove then acc.2 else acc.2 + 1)
    else some acc

/-- The inner loop `for (int c = 0; c < SIZE; c++)` of `areTigersTrapped`. -/
def scanRow (b : Board) (acc : Int × Int) (r : Int) : Option (Int × Int) :=
  (loopRange 5).foldlM (scanCell b r) acc

/-- The function `int areTigersTrapped()` on the board `b`. -/
def areTigersTrapped (b : Board) : Option Bool :=
  ((loopRange 5).foldlM (scanRow b) (0, 0)).map fun acc =>
    decide (acc.1 = 4) && decide (acc.2 = 4)

/-! ## Game state and history -/

/-- The struct `GameState`, one snapshot of the history. -/
structure GameState where
  board : Board
  goatCount : Int
  goatsOnBoard : Int
  goatsCaptured : Int
  turn : Int
deriving DecidableEq

/-- The globals of the program: the live board and counters, and the two snapshot arrays
`undoStack[MAX_HISTORY]`, `redoStack[MAX_HISTORY]` with their top indices.  (`gamePlayed`
is only written and read by the save-file functions and is left out.) -/
structure Game where
  board : Board
  goatCount : Int
  goatsOnBoard : Int
  goatsCaptured : Int
  undoStack : Fin 100 → GameState
  undoTop : Int
  redoStack : Fin 100 → GameState
  redoTop : Int

/-- The read `stack[i]` of a snapshot array; `none` when `i` is outside `[0,100)`. -/
def readSlot (s : Fin 100 → GameState) (i : Int) : Option GameState :=
  if h : 0 ≤ i ∧ i < 100 then some (s ⟨i.toNat, by omega⟩) else none

/-- The write `stack[i] = v` of a snapshot array; `none` when `i` is outside `[0,100)`. -/
def writeSlot (s : Fin 100 → GameState) (i : Int) (v : GameState) :
    Option (Fin 100 → GameState) :=
  if h : 0 ≤ i ∧ i < 100 then
    some (fun k => if k = (⟨i.toNat, by omega⟩ : Fin 100) then v else s k)
  else none

/-- The live state copied into a snapshot, as both `saveState` and the push branches of
`undoMove`/`redoMove` do field by field. -/
def snapshot (g : Game) (turn : Int) : GameState :=
  { board := g.board, goatCount := g.goatCount, goatsOnBoard := g.goatsOnBoard,
    goatsCaptured := g.goatsCaptured, turn := turn }

/-- The function `void saveState(int currentTurn)`. -/
def saveState (g : Game) (currentTurn : Int) : Option Game :=
  (if g.undoTop < MAX_HISTORY - 1 then
      (writeSlot g.undoStack (g.undoTop + 1) (snapshot g currentTurn)).map fun s =>
        { g with undoTop := g.undoTop + 1, undoStack := s }
    else some g).map fun g1 => { g1 with redoTop := -1 }

/-- The function `int undoMove(int *currentTurn)`: return code, globals and `*currentTurn`
after the call. -/
def undoMove (g : Game) (currentTurn : Int) : Option (Int × Game × Int) :=
  if g.undoTop ≥ 0 then
    (if g.redoTop < MAX_HISTORY - 1 then
        (writeSlot g.redoStack (g.redoTop + 1) (snapshot g currentTurn)).map fun s =>
          { g with redoTop := g.redoTop + 1, redoStack := s }
      else some g).bind fun g1 =>
    (readSlot g1.undoStack g1.undoTop).map fun st =>
      (1, { g1 with board := st.board, goatCount := st.goatCount,
                    goatsOnBoard := st.goatsOnBoard, goatsCaptured := st.goatsCaptured,
                    undoTop := g1.undoTop - 1 }, st.turn)
  else some (0, g, currentTurn)

/-- The function `int redoMove(int *currentTurn)`: return code, globals and `*currentTurn`
after the call. -/
def redoMove (g : Game) (currentTurn : Int) : Option (Int × Game × Int) :=
  if g.redoTop ≥ 0 then
    (if g.undoTop < MAX_HISTORY - 1 then
        (writeSlot g.undoStack (g.undoTop + 1) (snapshot g currentTurn)).map fun s =>
          { g with undoTop := g.undoTop + 1, undoStack := s }
      else some g).bind fun g1 =>
    (readSlot g1.redoStack g1.redoTop).map fun st =>
      (1, { g1 with board := st.board, goatCount := st.goatCount,
                    goatsOnBoard := st.goatsOnBoard, goatsCaptured := st.goatsCaptured,
                    redoTop := g1.redoTop - 1 }, st.turn)
  else some (0, g, currentTurn)

/-- The function `void initBoard()`: both cell loops, the four corner assignments and the
resets of the counters and stack tops.  The snapshot arrays themselves are not touched. -/
def initBoard (g : Game) : Game :=
  let b0 := (List.finRange 5).foldl
    (fun b i => (List.finRange 5).foldl (fun b j => setCell b i j EMPTY) b) g.board
  let b1 := setCell b0 0 0 TIGER
  let b2 := setCell b1 0 4 TIGER
  let b3 := setCell b2 4 0 TIGER
  let b4 := setCell b3 4 4 TIGER
  { g with board := b4, goatCount := 20, goatsCaptured := 0, goatsOnBoard := 0,
           undoTop := -1, redoTop := -1 }

/-! ## Player input -/

/-- The libc function `tolower` on the letters `A` .. `Z`; other characters are kept. -/
def cToLower (ch : Char) : Char :=
  if 65 ≤ ch.toNat ∧ ch.toNat ≤ 90 then Char.ofNat (ch.toNat + 32) else ch

/-- The test `strcasecmp(a, b) == 0`: equal strings up to the case of letters. -/
def strcasecmpEq (a b : List Char) : Bool :=
  decide (a.map cToLower = b.map cToLower)

/-- The digits loop of `atoi`: the value of the longest prefix of decimal digits, on top of
the value `acc` read so far. -/
def atoiDigits : List Char → Int → Int
  | [], acc => acc
  | ch :: rest, acc =>
    if 48 ≤ ch.toNat ∧ ch.toNat ≤ 57 then atoiDigits rest (acc * 10 + (ch.toNat - 48 : Nat))
    else acc

/-- The libc function `atoi` on a token without white space: an optional sign and the
longest prefix of digits; 0 when there is no digit. -/
def atoi (s : List Char) : Int :=
  match s with
  | '-' :: rest => - atoiDigits rest 0
  | '+' :: rest => atoiDigits rest 0
  | _ => atoiDigits s 0

/-- What one turn reads from standard input.  `token` is the word `scanf("%s", input)`
stores (`none` when that `scanf` does not return 1); `c1`, `r2`, `c2` are the values the
variables of these names hold after the `scanf` of the integers (1-based, before the
decrement), whatever that `scanf` did. -/
structure TurnInput where
  token : Option (List Char)
  c1 : Int
  r2 : Int
  c2 : Int

/-- The command dispatch common to the three input blocks of `goatTurn` and `tigerTurn`:
the token is stored in `char input[10]` (a word of 10 or more characters writes past the
buffer: `none`), then compared with `u`, `r` and `exit`; any other token is handed to
`move` with `r1 = atoi(input) - 1`. -/
def readCommand (g : Game) (currentTurn : Int) (token : Option (List Char))
    (move : Int → Option (Int × Game × Int)) : Option (Int × Game × Int) :=
  match token with
  | none => some (0, g, currentTurn)
  | some input =>
    if input.length ≥ 10 then none
    else if strcasecmpEq input ['u'] then
      (undoMove g currentTurn).map fun res => (0, res.2.1, res.2.2)
    else if strcasecmpEq input ['r'] then
      (redoMove g currentTurn).map fun res => (0, res.2.1, res.2.2)
    else if strcasecmpEq input ['e', 'x', 'i', 't'] then some (-1, g, currentTurn)
    else move (atoi input - 1)

/-! ## Turn execution -/

/-- The placement branch of `goatTurn` after the input is read, with 0-based `r1`, `c1`. -/
def placeGoat (g : Game) (currentTurn : Int) (r1 c1 : Int) : Option (Int × Game × Int) :=
  (freeCell g.board r1 c1).bind fun ok =>
    if ok then
      (saveState g currentTurn).bind fun g1 =>
      (writeCell g1.board r1 c1 GOAT).map fun b1 =>
        (1, { g1 with board := b1, goatsOnBoard := g1.goatsOnBoard + 1,
                      goatCount := g1.goatCount - 1 }, currentTurn)
    else some (0, g, currentTurn)

/-- The movement branch of `goatTurn` after the input is read, with 0-based coordinates. -/
def moveGoat (g : Game) (currentTurn : Int) (r1 c1 r2 c2 : Int) :
    Option (Int × Game × Int) :=
  (isValidMoveGoat g.board r1 c1 r2 c2).bind fun ok =>
    if ok then
      (saveState g currentTurn).bind fun g1 =>
      (writeCell g1.board r1 c1 EMPTY).bind fun b1 =>
      (writeCell b1 r2 c2 GOAT).map fun b2 =>
        (1, { g1 with board := b2 }, currentTurn)
    else some (0, g, currentTurn)

/-- The function `int goatTurn(int *currentTurn)`: return code (1 = turn successful,
0 = undo, redo or invalid, -1 = exit), globals and `*currentTurn` after the call. -/
def goatTurn (g : Game) (currentTurn : Int) (inp : TurnInput) : Option (Int × Game × Int) :=
  if g.goatsOnBoard < 20 then
    readCommand g currentTurn inp.token fun r1 =>
      placeGoat g currentTurn r1 (inp.c1 - 1)
  else
    readCommand g currentTurn inp.token fun r1 =>
      moveGoat g currentTurn r1 (inp.c1 - 1) (inp.r2 - 1) (inp.c2 - 1)

/-- The part of `tigerTurn` after the input is read, with 0-based coordinates: the call of
`isValidMoveTiger` with `capR = capC = -1` and the three branches on `moveType`. -/
def moveTiger (g : Game) (currentTurn : Int) (r1 c1 r2 c2 : Int) :
    Option (Int × Game × Int) :=
  (isValidMoveTiger g.board r1 c1 r2 c2 (-1) (-1)).bind fun res =>
    let moveType := res.1
    let capR := res.2.1
    let capC := res.2.2
    if moveType = 1 then
      (saveState g currentTurn).bind fun g1 =>
      (writeCell g1.board r1 c1 EMPTY).bind fun b1 =>
      (writeCell b1 r2 c2 TIGER).map fun b2 =>
        (1, { g1 with board := b2 }, currentTurn)
    else if moveType = 2 then
      (saveState g currentTurn).bind fun g1 =>
      (writeCell g1.board r1 c1 EMPTY).bind fun b1 =>
      (writeCell b1 r2 c2 TIGER).bind fun b2 =>
      (writeCell b2 capR capC EMPTY).map fun b3 =>
        (1, { g1 with board := b3, goatsCaptured := g1.goatsCaptured + 1 }, currentTurn)
    else some (0, g, currentTurn)

/-- The function `int tigerTurn(int *currentTurn)`: return code, globals and `*currentTurn`
after the call. -/
def tigerTurn (g : Game) (currentTurn : Int) (inp : TurnInput) : Option (Int × Game × Int) :=
  readCommand g currentTurn inp.token fun r1 =>
    moveTiger g currentTurn r1 (inp.c1 - 1) (inp.r2 - 1) (inp.c2 - 1)

/-- The turn part of one pass of the loop of `startGame`: the turn function chosen by
`turn == 0`, and `turn = 1 - turn` when it returns 1.  The result is the return code of the
turn function, the globals and the variable `turn` at the end of the pass. -/
def turnStep (g : Game) (turn : Int) (inp : TurnInput) : Option (Int × Game × Int) :=
  (if turn = 0 then goatTurn g turn inp else tigerTurn g turn inp).map fun res =>
    (res.1, res.2.1, if res.1 = 1 then 1 - res.2.2 else res.2.2)

/-- One pass of the loop `while (1)` of `startGame`.  `some none` is a `break` (a win
condition holds or the player typed `exit`), `some (some (g, turn))` is the state at the
start of the next pass. -/
def startGameStep (g : Game) (turn : Int) (inp : TurnInput) : Option (Option (Game × Int)) :=
  if g.goatsCaptured ≥ 5 then some none
  else
    (areTigersTrapped g.board).bind fun trapped =>
      if trapped then some none
      else (turnStep g turn inp).map fun res =>
        if res.1 = -1 then none else some (res.2.1, res.2.2)

/-- The loop of `startGame` run on a list of inputs, one per pass: the state at the start
of the pass after the last input, `none` when the loop has ended before or an access went
outside an array. -/
def playGame (g : Game) (turn : Int) : List TurnInput → Option (Game × Int)
  | [] => some (g, turn)
  | inp :: rest =>
    match startGameStep g turn inp with
    | some (some (g1, turn1)) => playGame g1 turn1 rest
    | _ => none

/-- The states of a game: `initBoard` followed by `turn = 0` as in `main` and `startGame`,
then any number of turns.  The win tests of `startGame` are not required to fail before a
turn, so every state the loop of `startGame` can be in is among these. -/
inductive Reachable : Game → Int → Prop
  | init (g0 : Game) : Reachable (initBoard g0) 0
  | step {g : Game} {turn : Int} (inp : TurnInput) {res : Int × Game × Int} :
      Reachable g turn → turnStep g turn inp = some res → Reachable res.2.1 res.2.2

/-! ## Vocabulary of the properties -/

/-- The number of cells of the board that hold `TIGER`. -/
def tigerCount (b : Board) : Nat :=
  (Finset.univ.filter fun p : Fin 5 × Fin 5 => b p.1 p.2 = TIGER).card

/-- A tiger at `(r,c)` is trapped: in each of the 8 directions `(dr,dc)` the neighbour is
not an Empty cell of the board, and it is not a Goat cell of the board with an Empty cell
of the board behind it at `(r+2dr, c+2dc)`. -/
def trappedAt (b : Board) (r c : Int) : Prop :=
  ∀ dr dc : Int, |dr| ≤ 1 → |dc| ≤ 1 → ¬ (dr = 0 ∧ dc = 0) →
    ¬ holds b (r + dr) (c + dc) EMPTY ∧
    ¬ (holds b (r + dr) (c + dc) GOAT ∧ holds b (r + 2 * dr) (c + 2 * dc) EMPTY)

/-- Some entry of the direction table offers the tiger at `(r,c)` a step to an Empty cell
or a jump over a Goat to an Empty cell. -/
def canMoveAt (b : Board) (r c : Int) : Prop :=
  ∃ d ∈ directions,
    holds b (r + d.1) (c + d.2) EMPTY ∨
      (holds b (r + d.1 * 2) (c + d.2 * 2) EMPTY ∧ holds b (r + d.1) (c + d.2) GOAT)

instance (b : Board) (r c : Int) : Decidable (canMoveAt b r c) := by
  unfold canMoveAt; infer_instance

/-! ## Concrete states used in examples -/

/-- A snapshot with an all-Empty board and zero counters. -/
def blankState : GameState :=
  { board := fun _ _ => EMPTY, goatCount := 0, goatsOnBoard := 0, goatsCaptured := 0,
    turn := 0 }

/-- Globals before the first game: an all-Empty board, zero counters, empty stacks whose
slots all hold `blankState`. -/
def blankGame : Game :=
  { board := fun _ _ => EMPTY, goatCount := 0, goatsOnBoard := 0, goatsCaptured := 0,
    undoStack := fun _ => blankState, undoTop := -1,
    redoStack := fun _ => blankState, redoTop := -1 }

/-- Two states of the globals with the same history: both snapshot arrays and both top
indices agree. -/
def sameHistory (a b : Game) : Prop :=
  a.undoStack = b.undoStack ∧ a.undoTop = b.undoTop ∧
  a.redoStack = b.redoStack ∧ a.redoTop = b.redoTop

/-- What a turn function can have done when it returns `res` from the state `g` with
`*currentTurn = t`: nothing with a return code other than 1 (no input, `exit`, a rejected
move); an `undoMove`; a `redoMove`; or an accepted move, which is a `saveState` followed
by changes to the board and counters only, with return code 1. -/
def TurnOutcome (g : Game) (t : Int) (res : Int × Game × Int) : Prop :=
  (res.1 ≠ 1 ∧ res.2.1 = g ∧ res.2.2 = t) ∨
  (∃ u, undoMove g t = some u ∧ res = (0, u.2.1, u.2.2)) ∨
  (∃ u, redoMove g t = some u ∧ res = (0, u.2.1, u.2.2)) ∨
  (res.1 = 1 ∧ res.2.2 = t ∧ ∃ g1, saveState g t = some g1 ∧ sameHistory g1 res.2.1)

/-- The input of a turn typed as four numbers, each 1-based and below 10: the first is the
token, the other three are read by the second `scanf`. -/
def typed (m : Nat × Nat × Nat × Nat) : TurnInput :=
  { token := some [Char.ofNat (48 + m.1)], c1 := m.2.1, r2 := m.2.2.1, c2 := m.2.2.2 }

/-- The first 40 turns of an example game: the goats are placed on every cell except the
corners and `(0,1)` (1-based `(1,2)`), and between two placements the tiger of the corner
`(0,0)` steps to `(0,1)` or back. -/
def opening : List (Nat × Nat × Nat × Nat) :=
  [
   (1,3,1,1), (1,1,1,2), (1,4,1,1), (1,2,1,1),
   (2,1,1,1), (1,1,1,2), (2,2,1,1), (1,2,1,1),
   (2,3,1,1), (1,1,1,2), (2,4,1,1), (1,2,1,1),
   (2,5,1,1), (1,1,1,2), (3,1,1,1), (1,2,1,1),
   (3,2,1,1), (1,1,1,2), (3,3,1,1), (1,2,1,1),
   (3,4,1,1), (1,1,1,2), (3,5,1,1), (1,2,1,1),
   (4,1,1,1), (1,1,1,2), (4,2,1,1), (1,2,1,1),
   (4,3,1,1), (1,1,1,2), (4,4,1,1), (1,2,1,1),
   (4,5,1,1), (1,1,1,2), (5,2,1,1), (1,2,1,1),
   (5,3,1,1), (1,1,1,2), (5,4,1,1), (1,2,1,1)
  ]

/-- Six turns after which the board is as before: the one Empty cell travels from `(0,1)`
to `(1,1)`, `(0,0)`, `(0,1)`, `(1,1)`, `(0,0)` and back to `(0,1)`, filled in turn by a goat
and by a tiger. -/
def cycle : List (Nat × Nat × Nat × Nat) :=
  [(2, 2, 1, 2), (1, 1, 2, 2), (1, 2, 1, 1), (2, 2, 1, 2), (1, 1, 2, 2), (1, 2, 1, 1)]

/-- An example game of 100 accepted moves: the opening and ten cycles. -/
def longPlay : List TurnInput :=
  (opening ++ (List.replicate 10 cycle).flatten).map typed

/-- The state of the loop of `startGame` after the inputs, from a new game started in
`blankGame`; the opening state if the loop has ended before the inputs are used up. -/
def afterPlay (inputs : List TurnInput) : Game × Int :=
  (playGame (initBoard blankGame) 0 inputs).getD (initBoard blankGame, 0)

/-- The two stacks are well formed: each top index is at least -1 and the two depths
together do not exceed the capacity of one array. -/
def HistInv (g : Game) : Prop :=
  -1 ≤ g.undoTop ∧ -1 ≤ g.redoTop ∧ g.undoTop + g.redoTop ≤ 98

instance (g : Game) : Decidable (HistInv g) := by
  unfold HistInv; infer_instance

/-- The number of cells of the board that hold the character `x`. -/
def cellCount (b : Board) (x : Char) : Nat :=
  (Finset.univ.filter fun p : Fin 5 × Fin 5 => b p.1 p.2 = x).card

/-- A simple move of a tiger on the board `b`: from a Tiger cell to an Empty cell of the
board one step away. -/
def tigerStep (b : Board) (r1 c1 r2 c2 : Int) : Prop :=
  holds b r1 c1 TIGER ∧ holds b r2 c2 EMPTY ∧ |r2 - r1| ≤ 1 ∧ |c2 - c1| ≤ 1

instance (b : Board) (r1 c1 r2 c2 : Int) : Decidable (tigerStep b r1 c1 r2 c2) := by
  unfold tigerStep; infer_instance

/-- A capture by a tiger on the board `b`: from a Tiger cell to an Empty cell of the board
two cells away along a row, a column or a diagonal, over a midpoint that holds Goat. -/
def tigerJump (b : Board) (r1 c1 r2 c2 : Int) : Prop :=
  holds b r1 c1 TIGER ∧ holds b r2 c2 EMPTY ∧
    (|r2 - r1|, |c2 - c1|) ∈ [((2 : Int), (0 : Int)), (0, 2), (2, 2)] ∧
    holds b (r1 + (r2 - r1).tdiv 2) (c1 + (c2 - c1).tdiv 2) GOAT

instance (b : Board) (r1 c1 r2 c2 : Int) : Decidable (tigerJump b r1 c1 r2 c2) := by
  unfold tigerJump; infer_instance

/-- A token that is read as a row number: it fits the buffer `char input[10]` and is none
of the commands `u`, `r`, `exit`. -/
def moveToken (tok : List Char) : Prop :=
  tok.length < 10 ∧ strcasecmpEq tok ['u'] = false ∧ strcasecmpEq tok ['r'] = false ∧
    strcasecmpEq tok ['e', 'x', 'i', 't'] = false

instance (tok : List Char) : Decidable (moveToken tok) := by
  unfold moveToken; infer_instance



/-- The piece counts of a state are consistent: 4 tigers on the board; goats on the board,
goats captured and goats still to place make 20; `goatsOnBoard` and `goatCount` make 20;
`goatCount` and `goatsCaptured` are not negative. -/
def GoodState (s : GameState) : Prop :=
  tigerCount s.board = 4 ∧
  (cellCount s.board GOAT : Int) + s.goatsCaptured + s.goatCount = 20 ∧
  s.goatsOnBoard + s.goatCount = 20 ∧ 0 ≤ s.goatCount ∧ 0 ≤ s.goatsCaptured

/-- The invariant of a game: well-formed stacks, consistent counts in the live state and
in every snapshot of both stacks up to their tops. -/
def GameInv (g : Game) : Prop :=
  HistInv g ∧ GoodState (snapshot g 0) ∧
  (∀ k : Int, 0 ≤ k → k ≤ g.undoTop → ∃ s, readSlot g.undoStack k = some s ∧ GoodState s) ∧
  (∀ k : Int, 0 ≤ k → k ≤ g.redoTop → ∃ s, readSlot g.redoStack k = some s ∧ GoodState s)

/-- The states of the globals reached from `initBoard` by any sequence of `saveState`,
`undoMove`, `redoMove` and turns of the game. -/
inductive StackReachable : Game → Prop
  | init (g0 : Game) : StackReachable (initBoard g0)
  | save {g g1 : Game} (t : Int) :
      StackReachable g → saveState g t = some g1 → StackReachable g1
  | undo {g : Game} (t : Int) {u : Int × Game × Int} :
      StackReachable g → undoMove g t = some u → StackReachable u.2.1
  | redo {g : Game} (t : Int) {u : Int × Game × Int} :
      StackReachable g → redoMove g t = some u → StackReachable u.2.1
  | turn {g : Game} (t : Int) (inp : TurnInput) {res : Int × Game × Int} :
      StackReachable g → turnStep g t inp = some res → StackReachable res.2.1
/-! ## Basic facts -/

theorem cAbs_eq_abs (x : Int) : cAbs x = |x| := by
  unfold cAbs
  split
  · rw [abs_of_neg (by assumption)]
  · rw [abs_of_nonneg (by omega)]

theorem isValidPosition_iff (r c : Int) :
    isValidPosition r c = true ↔ 0 ≤ r ∧ r < 5 ∧ 0 ≤ c ∧ c < 5 := by
  simp [isValidPosition, and_assoc]

theorem readCell_isSome_iff (b : Board) (r c : Int) :
    (∃ x, readCell b r c = some x) ↔ isValidPosition r c = true := by
  rw [isValidPosition_iff]
  unfold readCell
  split
  · simp_all
  · simp_all

theorem holds_valid {b : Board} {r c : Int} {x : Char} (h : holds b r c x) :
    isValidPosition r c = true :=
  (readCell_isSome_iff b r c).1 ⟨x, h⟩

theorem isAdjacent_iff (r1 c1 r2 c2 : Int) :
    isAdjacent r1 c1 r2 c2 = true ↔
      (r1, c1) ≠ (r2, c2) ∧ |r1 - r2| ≤ 1 ∧ |c1 - c2| ≤ 1 := by
  simp only [isAdjacent, cAbs_eq_abs, Bool.and_eq_true, decide_eq_true_eq, Bool.not_eq_true',
    Bool.and_eq_false_iff, decide_eq_false_iff_not, abs_eq_zero, ne_eq, Prod.mk.injEq,
    abs_le]
  constructor
  · rintro ⟨⟨h1, h2⟩, h3⟩
    refine ⟨?_, h1, h2⟩
    rintro ⟨rfl, rfl⟩
    omega
  · rintro ⟨h3, h1, h2⟩
    refine ⟨⟨h1, h2⟩, ?_⟩
    by_contra hc
    apply h3
    constructor <;> omega


/-! ## Adjacency (C1) -/

/-- C1, as stated, fails: `isAdjacent` has no bounds test, so it accepts the pair
`(4,4)`, `(4,5)` although `(4,5)` lies outside the board. -/
theorem isAdjacent_ignores_bounds :
    ¬ (isAdjacent 4 4 4 5 = true ↔
        (isValidPosition 4 4 = true ∧ isValidPosition 4 5 = true ∧
          ((4 : Int), (4 : Int)) ≠ (4, 5) ∧ |(4 : Int) - 4| ≤ 1 ∧ |(4 : Int) - 5| ≤ 1)) := by
  decide

/-- C1, amended: for all integers, `isAdjacent(r1,c1,r2,c2)` is true exactly when the two
positions differ and each coordinate differs by at most 1; whether the positions are on the
board plays no part. -/
theorem isAdjacent_spec (r1 c1 r2 c2 : Int) :
    isAdjacent r1 c1 r2 c2 = true ↔
      ((r1, c1) ≠ (r2, c2) ∧ |r1 - r2| ≤ 1 ∧ |c1 - c2| ≤ 1) :=
  isAdjacent_iff r1 c1 r2 c2

/-! ## Move validation (C2, C3) -/

theorem readCell_of_valid (b : Board) {r c : Int} (h : isValidPosition r c = true) :
    ∃ x, readCell b r c = some x :=
  (readCell_isSome_iff b r c).2 h

theorem readCell_eq_none {b : Board} {r c : Int} (h : isValidPosition r c = false) :
    readCell b r c = none := by
  cases hx : readCell b r c with
  | none => rfl
  | some x =>
    have := (readCell_isSome_iff b r c).1 ⟨x, hx⟩
    simp [h] at this

theorem not_holds_of_invalid {b : Board} {r c : Int} (x : Char)
    (h : isValidPosition r c = false) : ¬ holds b r c x := by
  intro hh
  have := holds_valid hh
  simp [h] at this

/-- The quotient `d / 2` of C for the three displacements of a jump. -/
theorem tdiv_two_cases {d : Int} (h : cAbs d = 2 ∨ cAbs d = 0) :
    (d = 2 ∧ d.tdiv 2 = 1) ∨ (d = -2 ∧ d.tdiv 2 = -1) ∨ (d = 0 ∧ d.tdiv 2 = 0) := by
  unfold cAbs at h
  have h3 : d = 2 ∨ d = -2 ∨ d = 0 := by
    split at h <;> omega
  rcases h3 with rfl | rfl | rfl
  · left; exact ⟨rfl, by decide⟩
  · right; left; exact ⟨rfl, by decide⟩
  · right; right; exact ⟨rfl, by decide⟩

/-- The shape of a jump: two cells along a row, a column or a diagonal. -/
theorem jump_mid_valid {r1 c1 r2 c2 : Int} (h1 : isValidPosition r1 c1 = true)
    (h2 : isValidPosition r2 c2 = true)
    (hs : (cAbs (r2 - r1) = 2 ∧ cAbs (c2 - c1) = 0) ∨ (cAbs (r2 - r1) = 0 ∧ cAbs (c2 - c1) = 2)
      ∨ (cAbs (r2 - r1) = 2 ∧ cAbs (c2 - c1) = 2)) :
    isValidPosition (r1 + (r2 - r1).tdiv 2) (c1 + (c2 - c1).tdiv 2) = true := by
  rw [isValidPosition_iff] at h1 h2 ⊢
  have hr : cAbs (r2 - r1) = 2 ∨ cAbs (r2 - r1) = 0 := by omega
  have hc : cAbs (c2 - c1) = 2 ∨ cAbs (c2 - c1) = 0 := by omega
  rcases tdiv_two_cases hr with ⟨a, a'⟩ | ⟨a, a'⟩ | ⟨a, a'⟩ <;>
  rcases tdiv_two_cases hc with ⟨e, e'⟩ | ⟨e, e'⟩ | ⟨e, e'⟩ <;>
  rw [a', e'] <;> omega

/-- A closed form of `isValidMoveTiger`: it never reads outside the board, and its three
results are decided by the contents of source, destination and midpoint. -/
theorem isValidMoveTiger_eq (b : Board) (r1 c1 r2 c2 cr cc : Int) :
    isValidMoveTiger b r1 c1 r2 c2 cr cc = some (
      if holds b r1 c1 TIGER ∧ holds b r2 c2 EMPTY then
        if cAbs (r2 - r1) ≤ 1 ∧ cAbs (c2 - c1) ≤ 1 then (1, cr, cc)
        else if ((cAbs (r2 - r1) = 2 ∧ cAbs (c2 - c1) = 0)
            ∨ (cAbs (r2 - r1) = 0 ∧ cAbs (c2 - c1) = 2)
            ∨ (cAbs (r2 - r1) = 2 ∧ cAbs (c2 - c1) = 2))
            ∧ holds b (r1 + (r2 - r1).tdiv 2) (c1 + (c2 - c1).tdiv 2) GOAT then
          (2, r1 + (r2 - r1).tdiv 2, c1 + (c2 - c1).tdiv 2)
        else (0, cr, cc)
      else (0, cr, cc)) := by
  unfold isValidMoveTiger
  cases h1 : isValidPosition r1 c1 with
  | false => simp [not_holds_of_invalid _ h1]
  | true =>
  cases h2 : isValidPosition r2 c2 with
  | false => simp [not_holds_of_invalid _ h2]
  | true =>
  obtain ⟨x, hx⟩ := readCell_of_valid b h1
  obtain ⟨y, hy⟩ := readCell_of_valid b h2
  simp only [Bool.not_true, Bool.or_self, Bool.false_eq_true, ↓reduceIte, hx, hy,
    Option.some_bind, holds, Option.some.injEq, ne_eq, ite_not]
  by_cases hxt : x = TIGER
  · by_cases hye : y = EMPTY
    · simp only [hxt, hye, ↓reduceIte, and_self]
      by_cases hsimple : cAbs (r2 - r1) ≤ 1 ∧ cAbs (c2 - c1) ≤ 1
      · simp only [hsimple, and_self, ↓reduceIte]
      · simp only [hsimple, ↓reduceIte]
        by_cases hs : (cAbs (r2 - r1) = 2 ∧ cAbs (c2 - c1) = 0)
            ∨ (cAbs (r2 - r1) = 0 ∧ cAbs (c2 - c1) = 2)
            ∨ (cAbs (r2 - r1) = 2 ∧ cAbs (c2 - c1) = 2)
        · obtain ⟨m, hm⟩ := readCell_of_valid b (jump_mid_valid h1 h2 hs)
          simp only [hs, ↓reduceIte, hm, Option.some_bind, true_and, Option.some.injEq]
          by_cases hmg : m = GOAT <;> simp [hmg]
        · simp only [hs, ↓reduceIte, false_and]
    · simp [hxt, hye]
  · simp [hxt]

/-- C2: `isValidMoveTiger` always returns, with code 0, 1 or 2.  When the source holds Tiger
and the destination is in bounds and Empty, the code is 1 exactly for a single step
(`|dr| ≤ 1`, `|dc| ≤ 1`, not both 0), and otherwise 2 exactly when `(|dr|,|dc|)` is `(2,0)`,
`(0,2)` or `(2,2)` and the midpoint holds Goat; with code 2 the reported coordinates are
the midpoint, a cell of the board; in every other case, a failing source or destination
requirement included, the code is 0 (and then the out-parameters keep their values). -/
theorem isValidMoveTiger_spec (b : Board) (r1 c1 r2 c2 cr cc : Int) :
    ∃ ret cr' cc', isValidMoveTiger b r1 c1 r2 c2 cr cc = some (ret, cr', cc') ∧
      (ret = 0 ∨ ret = 1 ∨ ret = 2) ∧
      (¬ (holds b r1 c1 TIGER ∧ holds b r2 c2 EMPTY) → ret = 0) ∧
      ((holds b r1 c1 TIGER ∧ holds b r2 c2 EMPTY) →
        (ret = 1 ↔ (|r2 - r1| ≤ 1 ∧ |c2 - c1| ≤ 1 ∧ ¬ (r2 - r1 = 0 ∧ c2 - c1 = 0))) ∧
        (¬ (|r2 - r1| ≤ 1 ∧ |c2 - c1| ≤ 1 ∧ ¬ (r2 - r1 = 0 ∧ c2 - c1 = 0)) →
          (ret = 2 ↔
            ((|r2 - r1|, |c2 - c1|) ∈ [((2 : Int), (0 : Int)), (0, 2), (2, 2)] ∧
              holds b (r1 + (r2 - r1).tdiv 2) (c1 + (c2 - c1).tdiv 2) GOAT)))) ∧
      (ret = 2 → cr' = r1 + (r2 - r1).tdiv 2 ∧ cc' = c1 + (c2 - c1).tdiv 2 ∧
        isValidPosition cr' cc' = true) ∧
      (ret ≠ 2 → cr' = cr ∧ cc' = cc) := by
  refine ⟨_, _, _, by rw [isValidMoveTiger_eq], ?_⟩
  simp only [← cAbs_eq_abs, List.mem_cons, Prod.mk.injEq, List.mem_singleton,
    List.not_mem_nil, or_false]
  by_cases hpre : holds b r1 c1 TIGER ∧ holds b r2 c2 EMPTY
  · have hne : ¬ (r2 - r1 = 0 ∧ c2 - c1 = 0) := by
      rintro ⟨e1, e2⟩
      have e3 : r2 = r1 := by omega
      have e4 : c2 = c1 := by omega
      subst e3 e4
      have := hpre.1.symm.trans hpre.2
      simp [TIGER, EMPTY] at this
    simp only [hpre, and_self, ↓reduceIte, not_true_eq_false, false_implies, true_implies,
      hne, not_false_eq_true, and_true, true_and]
    by_cases hsimple : cAbs (r2 - r1) ≤ 1 ∧ cAbs (c2 - c1) ≤ 1
    · simp [hsimple]
    · simp only [hsimple, ↓reduceIte, not_false_eq_true, true_implies]
      by_cases hs : ((cAbs (r2 - r1) = 2 ∧ cAbs (c2 - c1) = 0)
            ∨ (cAbs (r2 - r1) = 0 ∧ cAbs (c2 - c1) = 2)
            ∨ (cAbs (r2 - r1) = 2 ∧ cAbs (c2 - c1) = 2))
            ∧ holds b (r1 + (r2 - r1).tdiv 2) (c1 + (c2 - c1).tdiv 2) GOAT
      · have hv := holds_valid hs.2
        simp [hs, hv]
      · simp [hs]
  · simp [hpre]

/-- A closed form of `isValidMoveGoat`: it never reads outside the board. -/
theorem isValidMoveGoat_eq (b : Board) (r1 c1 r2 c2 : Int) :
    isValidMoveGoat b r1 c1 r2 c2 = some (decide
      (holds b r1 c1 GOAT ∧ holds b r2 c2 EMPTY ∧ isAdjacent r1 c1 r2 c2 = true)) := by
  unfold isValidMoveGoat
  cases h1 : isValidPosition r1 c1 with
  | false => simp [not_holds_of_invalid _ h1]
  | true =>
  cases h2 : isValidPosition r2 c2 with
  | false => simp [not_holds_of_invalid _ h2]
  | true =>
  obtain ⟨x, hx⟩ := readCell_of_valid b h1
  obtain ⟨y, hy⟩ := readCell_of_valid b h2
  simp only [Bool.not_true, Bool.or_self, Bool.false_eq_true, ↓reduceIte, hx, hy,
    Option.some_bind, holds, Option.some.injEq, ne_eq, ite_not]
  by_cases hxg : x = GOAT
  · by_cases hye : y = EMPTY
    · simp [hxg, hye]
    · simp [hxg, hye]
  · simp [hxg]

/-- C3: `isValidMoveGoat` always returns, and it returns true exactly when the source is in
bounds and holds Goat, the destination is in bounds and Empty, and the two positions
differ with each coordinate differing by at most 1; a move from a cell to itself is
rejected on every board. -/
theorem isValidMoveGoat_spec (b : Board) (r1 c1 r2 c2 : Int) :
    (∃ ok, isValidMoveGoat b r1 c1 r2 c2 = some ok ∧
      (ok = true ↔ (holds b r1 c1 GOAT ∧ holds b r2 c2 EMPTY ∧
        (r1, c1) ≠ (r2, c2) ∧ |r1 - r2| ≤ 1 ∧ |c1 - c2| ≤ 1))) ∧
    isValidMoveGoat b r1 c1 r1 c1 = some false ∧
    isValidMoveGoat b 2 2 2 2 = some false := by
  refine ⟨⟨_, isValidMoveGoat_eq b r1 c1 r2 c2, ?_⟩, ?_, ?_⟩
  · rw [decide_eq_true_iff, isAdjacent_iff]
  · rw [isValidMoveGoat_eq]
    simp [isAdjacent_iff]
  · rw [isValidMoveGoat_eq]
    simp [isAdjacent_iff]

/-! ## Trap detection (C4) -/

theorem mem_directions (dr dc : Int) :
    (dr, dc) ∈ directions ↔ (|dr| ≤ 1 ∧ |dc| ≤ 1 ∧ ¬ (dr = 0 ∧ dc = 0)) := by
  simp only [directions, List.mem_cons, Prod.mk.injEq, List.mem_singleton, List.not_mem_nil,
    or_false, abs_le]
  omega

theorem holds_fin (b : Board) (i j : Fin 5) (x : Char) :
    holds b (i : Int) (j : Int) x ↔ b i j = x := by
  have hi : (0 : Int) ≤ i ∧ (i : Int) < 5 := ⟨by omega, by omega⟩
  have hj : (0 : Int) ≤ j ∧ (j : Int) < 5 := ⟨by omega, by omega⟩
  simp [holds, readCell, hi, hj]

theorem freeCell_eq (b : Board) (r c : Int) :
    freeCell b r c = some (decide (holds b r c EMPTY)) := by
  unfold freeCell
  cases h : isValidPosition r c with
  | false => simp [not_holds_of_invalid _ h]
  | true =>
    obtain ⟨x, hx⟩ := readCell_of_valid b h
    simp [hx, holds]

theorem jumpFree_eq (b : Board) (r2 c2 r3 c3 : Int)
    (hmid : isValidPosition r3 c3 = true → isValidPosition r2 c2 = true) :
    jumpFree b r2 c2 r3 c3 = some (decide (holds b r3 c3 EMPTY ∧ holds b r2 c2 GOAT)) := by
  unfold jumpFree
  cases h : isValidPosition r3 c3 with
  | false => simp [not_holds_of_invalid _ h]
  | true =>
    obtain ⟨x, hx⟩ := readCell_of_valid b h
    obtain ⟨y, hy⟩ := readCell_of_valid b (hmid h)
    by_cases hxe : x = EMPTY <;> simp [hx, hy, holds, hxe]

/-- The direction loop never reads outside the board when it starts from a cell of the
board, and it finds exactly whether some direction offers a step or a jump. -/
theorem canMoveLoop_eq (b : Board) (r c : Int) (hrc : isValidPosition r c = true)
    (ds : List (Int × Int)) :
    canMoveLoop b r c ds = some (decide (∃ d ∈ ds,
      holds b (r + d.1) (c + d.2) EMPTY ∨
        (holds b (r + d.1 * 2) (c + d.2 * 2) EMPTY ∧ holds b (r + d.1) (c + d.2) GOAT))) := by
  induction ds with
  | nil => simp [canMoveLoop]
  | cons d rest ih =>
    have hmid : isValidPosition (r + d.1 * 2) (c + d.2 * 2) = true →
        isValidPosition (r + d.1) (c + d.2) = true := by
      rw [isValidPosition_iff] at hrc
      rw [isValidPosition_iff, isValidPosition_iff]
      omega
    simp only [canMoveLoop, freeCell_eq, jumpFree_eq b _ _ _ _ hmid, Option.some_bind, ih,
      List.mem_cons, exists_eq_or_imp]
    by_cases h1 : holds b (r + d.1) (c + d.2) EMPTY
    · simp [h1]
    · by_cases h2 : holds b (r + d.1 * 2) (c + d.2 * 2) EMPTY ∧ holds b (r + d.1) (c + d.2) GOAT
      · simp [h1, h2]
      · simp [h1, h2]

theorem canMoveAt_iff (b : Board) (r c : Int) :
    canMoveAt b r c ↔ ¬ trappedAt b r c := by
  unfold trappedAt canMoveAt
  constructor
  · rintro ⟨⟨dr, dc⟩, hd, h⟩ ht
    obtain ⟨h1, h2, h3⟩ := (mem_directions dr dc).1 hd
    obtain ⟨t1, t2⟩ := ht dr dc h1 h2 h3
    rcases h with h | ⟨h, h'⟩
    · exact t1 h
    · exact t2 ⟨h', by rw [mul_comm 2 dr, mul_comm 2 dc]; exact h⟩
  · intro ht
    by_contra hne
    apply ht
    intro dr dc h1 h2 h3
    have hd := (mem_directions dr dc).2 ⟨h1, h2, h3⟩
    constructor
    · intro h
      exact hne ⟨(dr, dc), hd, Or.inl h⟩
    · rintro ⟨h, h'⟩
      exact hne ⟨(dr, dc), hd, Or.inr ⟨by rw [mul_comm dr 2, mul_comm dc 2]; exact h', h⟩⟩

theorem loopRange_five :
    loopRange 5 = (List.finRange 5).map fun i : Fin 5 => (i : Int) := by
  decide

/-- The body of the cell loops at a cell of the board: one more tiger found when the cell
holds Tiger, one more tiger trapped when that tiger cannot move. -/
theorem scanCell_fin (b : Board) (i j : Fin 5) (acc : Int × Int) :
    scanCell b (i : Int) acc (j : Int) = some
      (acc.1 + (if b i j = TIGER then 1 else 0),
       acc.2 + (if b i j = TIGER ∧ ¬ canMoveAt b i j then 1 else 0)) := by
  have hv : isValidPosition (i : Int) (j : Int) = true := by
    rw [isValidPosition_iff]; omega
  have hr : readCell b (i : Int) (j : Int) = some (b i j) := (holds_fin b i j _).2 rfl
  unfold scanCell
  rw [hr, canMoveLoop_eq b _ _ hv]
  by_cases ht : b i j = TIGER
  · by_cases hm : canMoveAt b i j
    · have hm' := hm
      unfold canMoveAt at hm'
      simp [ht, hm, hm']
    · have hm' := hm
      unfold canMoveAt at hm'
      simp [ht, hm, hm']
  · simp [ht]

/-- A loop whose body adds `f a` and `g a` to the two counters adds up the sums. -/
theorem foldlM_counters {α : Type} (step : Int × Int → α → Option (Int × Int))
    (f g : α → Int) (h : ∀ acc a, step acc a = some (acc.1 + f a, acc.2 + g a))
    (l : List α) (acc : Int × Int) :
    l.foldlM step acc = some (acc.1 + (l.map f).sum, acc.2 + (l.map g).sum) := by
  induction l generalizing acc with
  | nil => simp
  | cons a rest ih =>
    simp only [List.foldlM, h, Option.bind_eq_bind, Option.some_bind, ih, List.map_cons,
      List.sum_cons, add_assoc]

theorem scanRow_fin (b : Board) (i : Fin 5) (acc : Int × Int) :
    scanRow b acc (i : Int) = some
      (acc.1 + ∑ j : Fin 5, (if b i j = TIGER then (1 : Int) else 0),
       acc.2 + ∑ j : Fin 5, (if b i j = TIGER ∧ ¬ canMoveAt b i j then (1 : Int) else 0)) := by
  unfold scanRow
  rw [loopRange_five, List.foldlM_map,
    foldlM_counters _ _ _ (fun acc j => scanCell_fin b i j acc), Fin.sum_univ_def,
    Fin.sum_univ_def]

/-- The board holds `tigersFound` tigers and `tigersTrapped` of them cannot move. -/
theorem areTigersTrapped_eq (b : Board) :
    areTigersTrapped b = some (decide
      ((∑ i : Fin 5, ∑ j : Fin 5, (if b i j = TIGER then (1 : Int) else 0)) = 4) &&
      decide ((∑ i : Fin 5, ∑ j : Fin 5,
        (if b i j = TIGER ∧ ¬ canMoveAt b i j then (1 : Int) else 0)) = 4)) := by
  unfold areTigersTrapped
  rw [loopRange_five, List.foldlM_map,
    foldlM_counters _ _ _ (fun acc i => scanRow_fin b i acc), Fin.sum_univ_def,
    Fin.sum_univ_def]
  simp

theorem sum_cells_eq_card (P : Fin 5 → Fin 5 → Prop) [∀ i j, Decidable (P i j)] :
    (∑ i : Fin 5, ∑ j : Fin 5, (if P i j then (1 : Int) else 0)) =
      ((Finset.univ.filter fun p : Fin 5 × Fin 5 => P p.1 p.2).card : Int) := by
  rw [← Fintype.sum_prod_type' (fun i j => if P i j then (1 : Int) else 0)]
  simp

theorem holds_cases {b : Board} {r c : Int} {x : Char} (h : holds b r c x) :
    ∃ i j : Fin 5, (i : Int) = r ∧ (j : Int) = c ∧ b i j = x := by
  have hv := (isValidPosition_iff r c).1 (holds_valid h)
  refine ⟨⟨r.toNat, by omega⟩, ⟨c.toNat, by omega⟩, ?_, ?_, ?_⟩
  · simp only [Int.toNat_of_nonneg hv.1]
  · simp only [Int.toNat_of_nonneg hv.2.2.1]
  · simpa [holds, readCell, hv] using h

/-- The result of `areTigersTrapped` in terms of the board: it always returns, and it
returns true exactly when there are 4 tigers and all are trapped. -/
theorem areTigersTrapped_char (b : Board) :
    ∃ res, areTigersTrapped b = some res ∧
      (res = true ↔
        (tigerCount b = 4 ∧ ∀ r c : Int, holds b r c TIGER → trappedAt b r c)) := by
  refine ⟨_, areTigersTrapped_eq b, ?_⟩
  rw [sum_cells_eq_card (fun i j => b i j = TIGER),
    sum_cells_eq_card (fun i j => b i j = TIGER ∧ ¬ canMoveAt b i j)]
  have key : ((Finset.univ.filter fun p : Fin 5 × Fin 5 =>
        b p.1 p.2 = TIGER ∧ ¬ canMoveAt b p.1 p.2).card =
      (Finset.univ.filter fun p : Fin 5 × Fin 5 => b p.1 p.2 = TIGER).card) ↔
      ∀ r c : Int, holds b r c TIGER → trappedAt b r c := by
    rw [← Finset.filter_filter, Finset.card_filter_eq_iff]
    constructor
    · intro h r c hrc
      obtain ⟨i, j, rfl, rfl, hij⟩ := holds_cases hrc
      have := h (i, j) (by simp [hij])
      by_contra hc
      exact this ((canMoveAt_iff b _ _).2 hc)
    · intro h p hp
      have hp' : b p.1 p.2 = TIGER := by simpa using hp
      have := h p.1 p.2 ((holds_fin b p.1 p.2 TIGER).2 hp')
      intro hm
      exact (canMoveAt_iff b _ _).1 hm this
  have hcast : ∀ n : Nat, ((n : Int) = 4) ↔ n = 4 := by intro n; omega
  simp only [Bool.and_eq_true, decide_eq_true_eq, hcast, tigerCount]
  constructor
  · rintro ⟨h1, h2⟩
    exact ⟨h1, key.1 (h2.trans h1.symm)⟩
  · rintro ⟨h1, h2⟩
    exact ⟨h1, (key.2 h2).trans h1⟩

/-- C4: `areTigersTrapped` always returns (it never reads a cell outside the board), and it
returns true exactly when the board holds exactly 4 Tiger cells and each of them is
trapped; on a board with fewer than 4 tigers it returns false. -/
theorem areTigersTrapped_spec (b : Board) :
    ∃ res, areTigersTrapped b = some res ∧
      (res = true ↔
        (tigerCount b = 4 ∧ ∀ r c : Int, holds b r c TIGER → trappedAt b r c)) ∧
      (tigerCount b < 4 → res = false) := by
  obtain ⟨res, h1, h2⟩ := areTigersTrapped_char b
  refine ⟨res, h1, h2, ?_⟩
  intro hlt
  cases hres : res with
  | false => rfl
  | true =>
    have := (h2.1 hres).1
    omega

/-! ## Trap detection against the move validator (C5) -/

/-- The return code of `isValidMoveTiger` is non-zero exactly for a step to an Empty cell or
a jump over a Goat to an Empty cell. -/
theorem isValidMoveTiger_ne_zero_iff (b : Board) (r1 c1 r2 c2 cr cc : Int) :
    (∃ out, isValidMoveTiger b r1 c1 r2 c2 cr cc = some out ∧ out.1 ≠ 0) ↔
      (holds b r1 c1 TIGER ∧ holds b r2 c2 EMPTY ∧
        ((cAbs (r2 - r1) ≤ 1 ∧ cAbs (c2 - c1) ≤ 1) ∨
          (((cAbs (r2 - r1) = 2 ∧ cAbs (c2 - c1) = 0)
            ∨ (cAbs (r2 - r1) = 0 ∧ cAbs (c2 - c1) = 2)
            ∨ (cAbs (r2 - r1) = 2 ∧ cAbs (c2 - c1) = 2))
            ∧ holds b (r1 + (r2 - r1).tdiv 2) (c1 + (c2 - c1).tdiv 2) GOAT))) := by
  rw [isValidMoveTiger_eq]
  simp only [Option.some.injEq, exists_eq_left', ne_eq]
  by_cases hpre : holds b r1 c1 TIGER ∧ holds b r2 c2 EMPTY
  · by_cases hsimple : cAbs (r2 - r1) ≤ 1 ∧ cAbs (c2 - c1) ≤ 1
    · simp [hpre, hsimple]
    · by_cases hs : ((cAbs (r2 - r1) = 2 ∧ cAbs (c2 - c1) = 0)
            ∨ (cAbs (r2 - r1) = 0 ∧ cAbs (c2 - c1) = 2)
            ∨ (cAbs (r2 - r1) = 2 ∧ cAbs (c2 - c1) = 2))
            ∧ holds b (r1 + (r2 - r1).tdiv 2) (c1 + (c2 - c1).tdiv 2) GOAT
      · simp [hpre, hsimple, hs]
      · simp only [hpre, and_self, ↓reduceIte, hsimple, hs, not_true_eq_false, or_self,
          and_false]
  · have : ¬ (holds b r1 c1 TIGER ∧ holds b r2 c2 EMPTY ∧
        ((cAbs (r2 - r1) ≤ 1 ∧ cAbs (c2 - c1) ≤ 1) ∨
          (((cAbs (r2 - r1) = 2 ∧ cAbs (c2 - c1) = 0)
            ∨ (cAbs (r2 - r1) = 0 ∧ cAbs (c2 - c1) = 2)
            ∨ (cAbs (r2 - r1) = 2 ∧ cAbs (c2 - c1) = 2))
            ∧ holds b (r1 + (r2 - r1).tdiv 2) (c1 + (c2 - c1).tdiv 2) GOAT))) := by
      rintro ⟨h1, h2, -⟩
      exact hpre ⟨h1, h2⟩
    simp [hpre, this]

/-- A tiger is trapped exactly when `isValidMoveTiger` rejects every destination. -/
theorem trappedAt_iff_no_move (b : Board) (r c : Int) (ht : holds b r c TIGER) :
    trappedAt b r c ↔
      ∀ r2 c2 cr cc : Int, ¬ ∃ out, isValidMoveTiger b r c r2 c2 cr cc = some out ∧ out.1 ≠ 0 := by
  constructor
  · intro htr r2 c2 cr cc hmove
    rw [isValidMoveTiger_ne_zero_iff] at hmove
    obtain ⟨-, hdst, hm⟩ := hmove
    have hne : ¬ (r2 - r = 0 ∧ c2 - c = 0) := by
      rintro ⟨e1, e2⟩
      have e3 : r2 = r := by omega
      have e4 : c2 = c := by omega
      subst e3 e4
      have := ht.symm.trans hdst
      simp [TIGER, EMPTY] at this
    rcases hm with ⟨h1, h2⟩ | ⟨hs, hmid⟩
    · rw [cAbs_eq_abs] at h1 h2
      have := (htr (r2 - r) (c2 - c) h1 h2 hne).1
      apply this
      have e1 : r + (r2 - r) = r2 := by omega
      have e2 : c + (c2 - c) = c2 := by omega
      rw [e1, e2]
      exact hdst
    · have hr : cAbs (r2 - r) = 2 ∨ cAbs (r2 - r) = 0 := by omega
      have hc : cAbs (c2 - c) = 2 ∨ cAbs (c2 - c) = 0 := by omega
      have h1 : |(r2 - r).tdiv 2| ≤ 1 := by
        rw [abs_le]
        rcases tdiv_two_cases hr with ⟨-, a'⟩ | ⟨-, a'⟩ | ⟨-, a'⟩ <;> omega
      have h2 : |(c2 - c).tdiv 2| ≤ 1 := by
        rw [abs_le]
        rcases tdiv_two_cases hc with ⟨-, a'⟩ | ⟨-, a'⟩ | ⟨-, a'⟩ <;> omega
      have e1 : r + 2 * (r2 - r).tdiv 2 = r2 := by
        rcases tdiv_two_cases hr with ⟨a, a'⟩ | ⟨a, a'⟩ | ⟨a, a'⟩ <;> omega
      have e2 : c + 2 * (c2 - c).tdiv 2 = c2 := by
        rcases tdiv_two_cases hc with ⟨a, a'⟩ | ⟨a, a'⟩ | ⟨a, a'⟩ <;> omega
      have h3 : ¬ ((r2 - r).tdiv 2 = 0 ∧ (c2 - c).tdiv 2 = 0) := by
        rintro ⟨z1, z2⟩
        rw [z1] at e1
        rw [z2] at e2
        omega
      have := (htr _ _ h1 h2 h3).2
      apply this
      refine ⟨hmid, ?_⟩
      rw [e1, e2]
      exact hdst
  · intro hno dr dc h1 h2 h3
    rw [abs_le] at h1 h2
    constructor
    · intro hfree
      apply hno (r + dr) (c + dc) 0 0
      rw [isValidMoveTiger_ne_zero_iff]
      refine ⟨ht, hfree, Or.inl ?_⟩
      have e1 : r + dr - r = dr := by omega
      have e2 : c + dc - c = dc := by omega
      rw [e1, e2]
      unfold cAbs
      constructor <;> split <;> omega
    · rintro ⟨hgoat, hfar⟩
      apply hno (r + 2 * dr) (c + 2 * dc) 0 0
      rw [isValidMoveTiger_ne_zero_iff]
      refine ⟨ht, hfar, Or.inr ?_⟩
      have e1 : r + 2 * dr - r = 2 * dr := by omega
      have e2 : c + 2 * dc - c = 2 * dc := by omega
      rw [e1, e2, Int.mul_tdiv_cancel_left _ (by decide), Int.mul_tdiv_cancel_left _ (by decide)]
      refine ⟨?_, hgoat⟩
      unfold cAbs
      have hdr : dr = -1 ∨ dr = 0 ∨ dr = 1 := by omega
      have hdc : dc = -1 ∨ dc = 0 ∨ dc = 1 := by omega
      rcases hdr with rfl | rfl | rfl <;> rcases hdc with rfl | rfl | rfl <;> simp at h3 ⊢

/-- C5: on a board with exactly 4 Tiger cells `areTigersTrapped` returns true exactly when
`isValidMoveTiger` returns 0 for every source and every destination, that is when no tiger
has a simple move or a capture; on a board with fewer than 4 tigers it returns false. -/
theorem areTigersTrapped_iff_no_tiger_move (b : Board) :
    (tigerCount b = 4 →
      ∃ res, areTigersTrapped b = some res ∧
        (res = true ↔
          ∀ r1 c1 r2 c2 cr cc : Int, holds b r1 c1 TIGER →
            ∃ out, isValidMoveTiger b r1 c1 r2 c2 cr cc = some out ∧ out.1 = 0)) ∧
    (tigerCount b < 4 → areTigersTrapped b = some false) := by
  obtain ⟨res, h1, h2⟩ := areTigersTrapped_char b
  constructor
  · intro h4
    refine ⟨res, h1, ?_⟩
    rw [h2]
    constructor
    · rintro ⟨-, htr⟩ r1 c1 r2 c2 cr cc ht
      refine ⟨_, isValidMoveTiger_eq b r1 c1 r2 c2 cr cc, ?_⟩
      by_contra hne
      exact (trappedAt_iff_no_move b r1 c1 ht).1 (htr r1 c1 ht) r2 c2 cr cc
        ⟨_, isValidMoveTiger_eq b r1 c1 r2 c2 cr cc, hne⟩
    · intro hall
      refine ⟨h4, fun r c ht => (trappedAt_iff_no_move b r c ht).2 ?_⟩
      rintro r2 c2 cr cc ⟨out, ho, hne⟩
      obtain ⟨out', ho', hz⟩ := hall r c r2 c2 cr cc ht
      rw [ho] at ho'
      cases ho'
      exact hne hz
  · intro hlt
    rw [h1]
    cases hres : res with
    | false => rfl
    | true =>
      have := (h2.1 hres).1
      omega

/-- C5 at two boards: the opening board has 4 tigers, so there the evaluator agrees with the
move validator; the all-Empty board has none, and the evaluator returns false. -/
theorem areTigersTrapped_iff_no_tiger_move_witness :
    (tigerCount (initBoard blankGame).board = 4 ∧
      ∃ res, areTigersTrapped (initBoard blankGame).board = some res ∧
        (res = true ↔
          ∀ r1 c1 r2 c2 cr cc : Int, holds (initBoard blankGame).board r1 c1 TIGER →
            ∃ out, isValidMoveTiger (initBoard blankGame).board r1 c1 r2 c2 cr cc = some out ∧
              out.1 = 0)) ∧
    (tigerCount blankGame.board < 4 ∧ areTigersTrapped blankGame.board = some false) :=
  ⟨⟨by decide, (areTigersTrapped_iff_no_tiger_move _).1 (by decide)⟩,
    ⟨by decide, (areTigersTrapped_iff_no_tiger_move _).2 (by decide)⟩⟩

/-! ## Snapshot arrays -/

theorem readSlot_eq_some (s : Fin 100 → GameState) {i : Int} (h : 0 ≤ i ∧ i < 100) :
    readSlot s i = some (s ⟨i.toNat, by omega⟩) := by
  simp [readSlot, h]

theorem readSlot_eq_none (s : Fin 100 → GameState) {i : Int} (h : ¬ (0 ≤ i ∧ i < 100)) :
    readSlot s i = none := by
  simp only [readSlot, h, ↓reduceDIte]

/-- A write inside the array succeeds; the written slot then reads back the value and every
other index reads as before. -/
theorem writeSlot_spec (s : Fin 100 → GameState) {i : Int} (v : GameState)
    (h : 0 ≤ i ∧ i < 100) :
    ∃ s', writeSlot s i v = some s' ∧ readSlot s' i = some v ∧
      ∀ k : Int, k ≠ i → readSlot s' k = readSlot s k := by
  refine ⟨fun k => if k = (⟨i.toNat, by omega⟩ : Fin 100) then v else s k, ?_, ?_, ?_⟩
  · simp only [writeSlot, h, and_self, ↓reduceDIte]
  · simp [readSlot, h]
  · intro k hk
    by_cases hkr : 0 ≤ k ∧ k < 100
    · have hne : k.toNat ≠ i.toNat := by omega
      simp [readSlot, hkr, hne]
    · simp only [readSlot, hkr, ↓reduceDIte]

/-! ## saveState (C9) -/

/-- C9: `saveState(turn)` on a state whose undo stack has a valid depth (`undoTop ≥ -1`)
returns, leaves the board and the three counters unchanged, and treats the undo stack as a
bounded stack of capacity 100: with fewer than 100 snapshots the depth grows by exactly 1,
the new top is the live state together with the given turn and all earlier entries are
unchanged; with 100 snapshots the undo stack is unchanged, depth and every entry. -/
theorem saveState_spec (g : Game) (turn : Int) (hwf : -1 ≤ g.undoTop) :
    ∃ g', saveState g turn = some g' ∧
      g'.board = g.board ∧ g'.goatCount = g.goatCount ∧
      g'.goatsOnBoard = g.goatsOnBoard ∧ g'.goatsCaptured = g.goatsCaptured ∧
      (g.undoTop + 1 < 100 →
        g'.undoTop + 1 = (g.undoTop + 1) + 1 ∧
        readSlot g'.undoStack g'.undoTop = some
          { board := g.board, goatCount := g.goatCount, goatsOnBoard := g.goatsOnBoard,
            goatsCaptured := g.goatsCaptured, turn := turn } ∧
        ∀ k : Int, k ≤ g.undoTop → readSlot g'.undoStack k = readSlot g.undoStack k) ∧
      (100 ≤ g.undoTop + 1 → g'.undoTop = g.undoTop ∧ g'.undoStack = g.undoStack) := by
  unfold saveState
  by_cases hroom : g.undoTop < MAX_HISTORY - 1
  · have hidx : 0 ≤ g.undoTop + 1 ∧ g.undoTop + 1 < 100 := by
      simp only [MAX_HISTORY] at hroom
      omega
    obtain ⟨s', hw, hr, hother⟩ := writeSlot_spec g.undoStack (snapshot g turn) hidx
    refine ⟨{ g with undoTop := g.undoTop + 1, undoStack := s', redoTop := -1 },
      by simp only [hroom, ↓reduceIte, hw, Option.map_some'], rfl, rfl, rfl, rfl, ?_, ?_⟩
    · intro _
      refine ⟨rfl, hr, ?_⟩
      intro k hk
      exact hother k (by omega)
    · intro hfull
      omega
  · refine ⟨{ g with redoTop := -1 },
      by simp only [hroom, ↓reduceIte, Option.map_some'], rfl, rfl, rfl, rfl, ?_, ?_⟩
    · intro hlt
      simp only [MAX_HISTORY] at hroom
      omega
    · intro _
      exact ⟨rfl, rfl⟩

/-- C9 at the state before the first game, whose undo stack is empty: the snapshot is
pushed as entry 0. -/
theorem saveState_spec_witness :
    -1 ≤ blankGame.undoTop ∧
    ∃ g', saveState blankGame 0 = some g' ∧
      g'.board = blankGame.board ∧ g'.goatCount = blankGame.goatCount ∧
      g'.goatsOnBoard = blankGame.goatsOnBoard ∧ g'.goatsCaptured = blankGame.goatsCaptured ∧
      (blankGame.undoTop + 1 < 100 →
        g'.undoTop + 1 = (blankGame.undoTop + 1) + 1 ∧
        readSlot g'.undoStack g'.undoTop = some
          { board := blankGame.board, goatCount := blankGame.goatCount,
            goatsOnBoard := blankGame.goatsOnBoard,
            goatsCaptured := blankGame.goatsCaptured, turn := 0 } ∧
        ∀ k : Int, k ≤ blankGame.undoTop →
          readSlot g'.undoStack k = readSlot blankGame.undoStack k) ∧
      (100 ≤ blankGame.undoTop + 1 →
        g'.undoTop = blankGame.undoTop ∧ g'.undoStack = blankGame.undoStack) :=
  ⟨by decide, saveState_spec blankGame 0 (by decide)⟩

/-! ## No history available (C10) -/

/-- C10: with an empty undo stack `undoMove` returns 0 and changes nothing, neither the
board, the counters, the turn indicator nor either stack; with an empty redo stack the same
holds for `redoMove`. -/
theorem no_history_noop (g : Game) (turn : Int) :
    (g.undoTop = -1 → undoMove g turn = some (0, g, turn)) ∧
    (g.redoTop = -1 → redoMove g turn = some (0, g, turn)) := by
  constructor
  · intro h
    simp [undoMove, h]
  · intro h
    simp [redoMove, h]

/-- C10 at the state before the first game, where both stacks are empty. -/
theorem no_history_noop_witness :
    (blankGame.undoTop = -1 ∧ undoMove blankGame 1 = some (0, blankGame, 1)) ∧
    (blankGame.redoTop = -1 ∧ redoMove blankGame 1 = some (0, blankGame, 1)) :=
  ⟨⟨by decide, (no_history_noop blankGame 1).1 (by decide)⟩,
    ⟨by decide, (no_history_noop blankGame 1).2 (by decide)⟩⟩

/-! ## What a turn does to the history -/

theorem placeGoat_outcome {g : Game} {t r1 c1 : Int} {res : Int × Game × Int}
    (h : placeGoat g t r1 c1 = some res) : TurnOutcome g t res := by
  unfold placeGoat at h
  rw [freeCell_eq] at h
  simp only [Option.some_bind] at h
  split at h
  · simp only [Option.bind_eq_some, Option.map_eq_some'] at h
    obtain ⟨g1, hs, b1, -, rfl⟩ := h
    exact Or.inr (Or.inr (Or.inr ⟨rfl, rfl, g1, hs, rfl, rfl, rfl, rfl⟩))
  · cases h
    exact Or.inl ⟨by simp, rfl, rfl⟩

theorem moveGoat_outcome {g : Game} {t r1 c1 r2 c2 : Int} {res : Int × Game × Int}
    (h : moveGoat g t r1 c1 r2 c2 = some res) : TurnOutcome g t res := by
  unfold moveGoat at h
  rw [isValidMoveGoat_eq] at h
  simp only [Option.some_bind] at h
  split at h
  · simp only [Option.bind_eq_some, Option.map_eq_some'] at h
    obtain ⟨g1, hs, b1, -, b2, -, rfl⟩ := h
    exact Or.inr (Or.inr (Or.inr ⟨rfl, rfl, g1, hs, rfl, rfl, rfl, rfl⟩))
  · cases h
    exact Or.inl ⟨by simp, rfl, rfl⟩

theorem moveTiger_outcome {g : Game} {t r1 c1 r2 c2 : Int} {res : Int × Game × Int}
    (h : moveTiger g t r1 c1 r2 c2 = some res) : TurnOutcome g t res := by
  unfold moveTiger at h
  cases hv : isValidMoveTiger g.board r1 c1 r2 c2 (-1) (-1) with
  | none =>
    rw [hv] at h
    cases h
  | some out =>
    rw [hv] at h
    simp only [Option.some_bind] at h
    split at h
    · simp only [Option.bind_eq_some, Option.map_eq_some'] at h
      obtain ⟨g1, hs, b1, -, b2, -, rfl⟩ := h
      exact Or.inr (Or.inr (Or.inr ⟨rfl, rfl, g1, hs, rfl, rfl, rfl, rfl⟩))
    · split at h
      · simp only [Option.bind_eq_some, Option.map_eq_some'] at h
        obtain ⟨g1, hs, b1, -, b2, -, b3, -, rfl⟩ := h
        exact Or.inr (Or.inr (Or.inr ⟨rfl, rfl, g1, hs, rfl, rfl, rfl, rfl⟩))
      · cases h
        exact Or.inl ⟨by simp, rfl, rfl⟩

theorem readCommand_outcome {g : Game} {t : Int} {token : Option (List Char)}
    {move : Int → Option (Int × Game × Int)} {res : Int × Game × Int}
    (hmove : ∀ r1 res, move r1 = some res → TurnOutcome g t res)
    (h : readCommand g t token move = some res) : TurnOutcome g t res := by
  unfold readCommand at h
  cases token with
  | none =>
    cases h
    exact Or.inl ⟨by simp, rfl, rfl⟩
  | some input =>
    simp only at h
    split at h
    · cases h
    · split at h
      · simp only [Option.map_eq_some'] at h
        obtain ⟨u, hu, rfl⟩ := h
        exact Or.inr (Or.inl ⟨u, hu, rfl⟩)
      · split at h
        · simp only [Option.map_eq_some'] at h
          obtain ⟨u, hu, rfl⟩ := h
          exact Or.inr (Or.inr (Or.inl ⟨u, hu, rfl⟩))
        · split at h
          · cases h
            exact Or.inl ⟨by simp, rfl, rfl⟩
          · exact hmove _ _ h

theorem goatTurn_outcome {g : Game} {t : Int} {inp : TurnInput} {res : Int × Game × Int}
    (h : goatTurn g t inp = some res) : TurnOutcome g t res := by
  unfold goatTurn at h
  split at h
  · exact readCommand_outcome (fun _ _ hm => placeGoat_outcome hm) h
  · exact readCommand_outcome (fun _ _ hm => moveGoat_outcome hm) h

theorem tigerTurn_outcome {g : Game} {t : Int} {inp : TurnInput} {res : Int × Game × Int}
    (h : tigerTurn g t inp = some res) : TurnOutcome g t res := by
  unfold tigerTurn at h
  exact readCommand_outcome (fun _ _ hm => moveTiger_outcome hm) h

theorem undoMove_empty {g : Game} (t : Int) (h : g.undoTop < 0) :
    undoMove g t = some (0, g, t) := by
  have : ¬ g.undoTop ≥ 0 := by omega
  simp only [undoMove, this, ↓reduceIte]

theorem redoMove_empty {g : Game} (t : Int) (h : g.redoTop < 0) :
    redoMove g t = some (0, g, t) := by
  have : ¬ g.redoTop ≥ 0 := by omega
  simp only [redoMove, this, ↓reduceIte]

/-- What `saveState` has done when it returns: the live state and the redo array are kept,
the redo stack is emptied, and the undo stack has one more slot written or is kept. -/
theorem saveState_inv {g g1 : Game} {t : Int} (h : saveState g t = some g1) :
    g1.board = g.board ∧ g1.goatCount = g.goatCount ∧ g1.goatsOnBoard = g.goatsOnBoard ∧
    g1.goatsCaptured = g.goatsCaptured ∧ g1.redoStack = g.redoStack ∧ g1.redoTop = -1 ∧
    ((g.undoTop < 99 ∧ g1.undoTop = g.undoTop + 1 ∧
        writeSlot g.undoStack (g.undoTop + 1) (snapshot g t) = some g1.undoStack) ∨
      (¬ g.undoTop < 99 ∧ g1.undoTop = g.undoTop ∧ g1.undoStack = g.undoStack)) := by
  unfold saveState at h
  by_cases hroom : g.undoTop < MAX_HISTORY - 1
  · simp only [hroom, ↓reduceIte, Option.map_map, Option.map_eq_some', Function.comp_apply] at h
    obtain ⟨s', hw, rfl⟩ := h
    simp only [MAX_HISTORY] at hroom
    exact ⟨rfl, rfl, rfl, rfl, rfl, rfl, Or.inl ⟨by omega, rfl, hw⟩⟩
  · simp only [hroom, ↓reduceIte, Option.map_some', Option.some.injEq] at h
    subst h
    simp only [MAX_HISTORY] at hroom
    exact ⟨rfl, rfl, rfl, rfl, rfl, rfl, Or.inr ⟨by omega, rfl, rfl⟩⟩

theorem map_fst_eq_some {α β : Type} {o : Option (α × β)} {a : α}
    (h : o.map Prod.fst = some a) : ∃ res, o = some res ∧ res.1 = a := by
  simp only [Option.map_eq_some'] at h
  exact h

/-- After a turn with return code 1 the redo stack is empty. -/
theorem redoTop_of_accepted {g : Game} {t : Int} {res : Int × Game × Int}
    (ho : TurnOutcome g t res) (h1 : res.1 = 1) : res.2.1.redoTop = -1 := by
  rcases ho with ⟨hne, -, -⟩ | ⟨u, -, rfl⟩ | ⟨u, -, rfl⟩ | ⟨-, -, g1, hs, hh⟩
  · exact absurd h1 hne
  · simp at h1
  · simp at h1
  · rw [← hh.2.2.2]
    exact (saveState_inv hs).2.2.2.2.2.1

/-! ## A new move clears the redo stack (C8) -/

/-- C8: whatever the state and the depth of either stack, when `goatTurn` (placement or
movement) or `tigerTurn` (simple move or capture) returns 1, the redo stack is empty
afterwards (`redoTop = -1`), and a `redoMove` right after it returns 0 and changes
nothing. -/
theorem accepted_move_clears_redo (g : Game) (t : Int) (inp : TurnInput) :
    ((goatTurn g t inp).map Prod.fst = some 1 →
      ∃ g' t', goatTurn g t inp = some (1, g', t') ∧ g'.redoTop = -1 ∧
        ∀ t'' : Int, redoMove g' t'' = some (0, g', t'')) ∧
    ((tigerTurn g t inp).map Prod.fst = some 1 →
      ∃ g' t', tigerTurn g t inp = some (1, g', t') ∧ g'.redoTop = -1 ∧
        ∀ t'' : Int, redoMove g' t'' = some (0, g', t'')) := by
  constructor
  · intro h
    obtain ⟨⟨ret, g', t'⟩, hres, h1⟩ := map_fst_eq_some h
    simp only at h1
    subst h1
    have htop := redoTop_of_accepted (goatTurn_outcome hres) rfl
    exact ⟨g', t', hres, htop, fun t'' => redoMove_empty t'' (by rw [htop]; decide)⟩
  · intro h
    obtain ⟨⟨ret, g', t'⟩, hres, h1⟩ := map_fst_eq_some h
    simp only at h1
    subst h1
    have htop := redoTop_of_accepted (tigerTurn_outcome hres) rfl
    exact ⟨g', t', hres, htop, fun t'' => redoMove_empty t'' (by rw [htop]; decide)⟩

theorem first_placement_accepted :
    (goatTurn (afterPlay []).1 0 (typed (1, 3, 1, 1))).map Prod.fst = some 1 := by
  decide!

theorem goat_move_accepted :
    (goatTurn (afterPlay (longPlay.take 40)).1 0 (typed (2, 2, 1, 2))).map Prod.fst
      = some 1 := by
  decide!

theorem tiger_step_accepted :
    (tigerTurn (afterPlay [typed (1, 2, 1, 1)]).1 1 (typed (1, 1, 2, 2))).map Prod.fst
      = some 1 := by
  decide!

theorem tiger_capture_accepted :
    (tigerTurn (afterPlay [typed (1, 2, 1, 1)]).1 1 (typed (1, 1, 1, 3))).map Prod.fst
      = some 1 := by
  decide!

/-- C8 at four accepted moves of an example game: the first goat placement, a goat move
after the 20 placements, and a simple move and a capture by the tiger of the corner `(0,0)`
after a goat was placed at `(0,1)`. -/
theorem accepted_move_clears_redo_witness :
    ((goatTurn (afterPlay []).1 0 (typed (1, 3, 1, 1))).map Prod.fst = some 1 ∧
      ∃ g' t', goatTurn (afterPlay []).1 0 (typed (1, 3, 1, 1)) = some (1, g', t') ∧
        g'.redoTop = -1 ∧ ∀ t'' : Int, redoMove g' t'' = some (0, g', t'')) ∧
    ((goatTurn (afterPlay (longPlay.take 40)).1 0 (typed (2, 2, 1, 2))).map Prod.fst = some 1 ∧
      ∃ g' t', goatTurn (afterPlay (longPlay.take 40)).1 0 (typed (2, 2, 1, 2))
          = some (1, g', t') ∧
        g'.redoTop = -1 ∧ ∀ t'' : Int, redoMove g' t'' = some (0, g', t'')) ∧
    ((tigerTurn (afterPlay [typed (1, 2, 1, 1)]).1 1 (typed (1, 1, 2, 2))).map Prod.fst
        = some 1 ∧
      ∃ g' t', tigerTurn (afterPlay [typed (1, 2, 1, 1)]).1 1 (typed (1, 1, 2, 2))
          = some (1, g', t') ∧
        g'.redoTop = -1 ∧ ∀ t'' : Int, redoMove g' t'' = some (0, g', t'')) ∧
    ((tigerTurn (afterPlay [typed (1, 2, 1, 1)]).1 1 (typed (1, 1, 1, 3))).map Prod.fst
        = some 1 ∧
      ∃ g' t', tigerTurn (afterPlay [typed (1, 2, 1, 1)]).1 1 (typed (1, 1, 1, 3))
          = some (1, g', t') ∧
        g'.redoTop = -1 ∧ ∀ t'' : Int, redoMove g' t'' = some (0, g', t'')) :=
  ⟨⟨first_placement_accepted, (accepted_move_clears_redo _ _ _).1 first_placement_accepted⟩,
   ⟨goat_move_accepted, (accepted_move_clears_redo _ _ _).1 goat_move_accepted⟩,
   ⟨tiger_step_accepted, (accepted_move_clears_redo _ _ _).2 tiger_step_accepted⟩,
   ⟨tiger_capture_accepted, (accepted_move_clears_redo _ _ _).2 tiger_capture_accepted⟩⟩

/-! ## Effect of undo and redo on well-formed stacks -/

/-- The successful branch of `undoMove`: the live state is pushed on the redo stack, the top
of the undo stack becomes the live state and the turn. -/
theorem undoMove_effect {g : Game} (t : Int) (hinv : HistInv g) (h0 : 0 ≤ g.undoTop) :
    ∃ g1 st, undoMove g t = some (1, g1, st.turn) ∧
      readSlot g.undoStack g.undoTop = some st ∧
      g1.board = st.board ∧ g1.goatCount = st.goatCount ∧
      g1.goatsOnBoard = st.goatsOnBoard ∧ g1.goatsCaptured = st.goatsCaptured ∧
      g1.undoStack = g.undoStack ∧ g1.undoTop = g.undoTop - 1 ∧
      g1.redoTop = g.redoTop + 1 ∧
      readSlot g1.redoStack (g.redoTop + 1) = some (snapshot g t) ∧
      ∀ k : Int, k ≠ g.redoTop + 1 → readSlot g1.redoStack k = readSlot g.redoStack k := by
  obtain ⟨hu, hr, hsum⟩ := hinv
  have hidx : 0 ≤ g.redoTop + 1 ∧ g.redoTop + 1 < 100 := by omega
  have hread : 0 ≤ g.undoTop ∧ g.undoTop < 100 := by omega
  obtain ⟨rs, hw, hrs, hother⟩ := writeSlot_spec g.redoStack (snapshot g t) hidx
  have hroom : g.redoTop < MAX_HISTORY - 1 := by simp only [MAX_HISTORY]; omega
  have hge : g.undoTop ≥ 0 := h0
  refine ⟨{ g with board := (g.undoStack ⟨g.undoTop.toNat, by omega⟩).board,
                   goatCount := (g.undoStack ⟨g.undoTop.toNat, by omega⟩).goatCount,
                   goatsOnBoard := (g.undoStack ⟨g.undoTop.toNat, by omega⟩).goatsOnBoard,
                   goatsCaptured := (g.undoStack ⟨g.undoTop.toNat, by omega⟩).goatsCaptured,
                   redoStack := rs, redoTop := g.redoTop + 1, undoTop := g.undoTop - 1 },
    g.undoStack ⟨g.undoTop.toNat, by omega⟩, ?_, readSlot_eq_some _ hread,
    rfl, rfl, rfl, rfl, rfl, rfl, rfl, hrs, hother⟩
  simp only [undoMove, hge, ↓reduceIte, hroom, hw, Option.map_some', Option.some_bind,
    readSlot_eq_some _ hread]

/-- The successful branch of `redoMove`, symmetric to `undoMove`. -/
theorem redoMove_effect {g : Game} (t : Int) (hinv : HistInv g) (h0 : 0 ≤ g.redoTop) :
    ∃ g1 st, redoMove g t = some (1, g1, st.turn) ∧
      readSlot g.redoStack g.redoTop = some st ∧
      g1.board = st.board ∧ g1.goatCount = st.goatCount ∧
      g1.goatsOnBoard = st.goatsOnBoard ∧ g1.goatsCaptured = st.goatsCaptured ∧
      g1.redoStack = g.redoStack ∧ g1.redoTop = g.redoTop - 1 ∧
      g1.undoTop = g.undoTop + 1 ∧
      readSlot g1.undoStack (g.undoTop + 1) = some (snapshot g t) ∧
      ∀ k : Int, k ≠ g.undoTop + 1 → readSlot g1.undoStack k = readSlot g.undoStack k := by
  obtain ⟨hu, hr, hsum⟩ := hinv
  have hidx : 0 ≤ g.undoTop + 1 ∧ g.undoTop + 1 < 100 := by omega
  have hread : 0 ≤ g.redoTop ∧ g.redoTop < 100 := by omega
  obtain ⟨us, hw, hus, hother⟩ := writeSlot_spec g.undoStack (snapshot g t) hidx
  have hroom : g.undoTop < MAX_HISTORY - 1 := by simp only [MAX_HISTORY]; omega
  have hge : g.redoTop ≥ 0 := h0
  refine ⟨{ g with board := (g.redoStack ⟨g.redoTop.toNat, by omega⟩).board,
                   goatCount := (g.redoStack ⟨g.redoTop.toNat, by omega⟩).goatCount,
                   goatsOnBoard := (g.redoStack ⟨g.redoTop.toNat, by omega⟩).goatsOnBoard,
                   goatsCaptured := (g.redoStack ⟨g.redoTop.toNat, by omega⟩).goatsCaptured,
                   undoStack := us, undoTop := g.undoTop + 1, redoTop := g.redoTop - 1 },
    g.redoStack ⟨g.redoTop.toNat, by omega⟩, ?_, readSlot_eq_some _ hread,
    rfl, rfl, rfl, rfl, rfl, rfl, rfl, hus, hother⟩
  simp only [redoMove, hge, ↓reduceIte, hroom, hw, Option.map_some', Option.some_bind,
    readSlot_eq_some _ hread]

theorem undoMove_histInv {g : Game} {t : Int} {u : Int × Game × Int} (hinv : HistInv g)
    (h : undoMove g t = some u) : HistInv u.2.1 := by
  by_cases h0 : 0 ≤ g.undoTop
  · obtain ⟨g1, st, he, -, -, -, -, -, -, htop, hrtop, -, -⟩ := undoMove_effect t hinv h0
    rw [he] at h
    cases h
    obtain ⟨hu, hr, hsum⟩ := hinv
    refine ⟨?_, ?_, ?_⟩ <;> simp only [htop, hrtop] <;> omega
  · rw [undoMove_empty t (by omega)] at h
    cases h
    exact hinv

theorem redoMove_histInv {g : Game} {t : Int} {u : Int × Game × Int} (hinv : HistInv g)
    (h : redoMove g t = some u) : HistInv u.2.1 := by
  by_cases h0 : 0 ≤ g.redoTop
  · obtain ⟨g1, st, he, -, -, -, -, -, -, hrtop, htop, -, -⟩ := redoMove_effect t hinv h0
    rw [he] at h
    cases h
    obtain ⟨hu, hr, hsum⟩ := hinv
    refine ⟨?_, ?_, ?_⟩ <;> simp only [htop, hrtop] <;> omega
  · rw [redoMove_empty t (by omega)] at h
    cases h
    exact hinv

theorem saveState_histInv {g g1 : Game} {t : Int} (hinv : HistInv g)
    (h : saveState g t = some g1) : HistInv g1 := by
  obtain ⟨-, -, -, -, -, hr, hcase⟩ := saveState_inv h
  obtain ⟨hu, hr0, hsum⟩ := hinv
  rcases hcase with ⟨hlt, htop, -⟩ | ⟨hge, htop, -⟩
  · refine ⟨?_, ?_, ?_⟩ <;> simp only [htop, hr] <;> omega
  · refine ⟨?_, ?_, ?_⟩ <;> simp only [htop, hr] <;> omega

theorem turnOutcome_histInv {g : Game} {t : Int} {res : Int × Game × Int}
    (hinv : HistInv g) (ho : TurnOutcome g t res) : HistInv res.2.1 := by
  rcases ho with ⟨-, hg, -⟩ | ⟨u, hu, rfl⟩ | ⟨u, hu, rfl⟩ | ⟨-, -, g1, hs, hh⟩
  · rw [hg]; exact hinv
  · exact @undoMove_histInv g t u hinv hu
  · exact @redoMove_histInv g t u hinv hu
  · have := saveState_histInv hinv hs
    unfold HistInv at this ⊢
    rw [← hh.2.1, ← hh.2.2.2]
    exact this

/-- The turn part of a pass of `startGame` in terms of the turn function it calls. -/
theorem turnStep_outcome {g : Game} {turn : Int} {inp : TurnInput} {res : Int × Game × Int}
    (h : turnStep g turn inp = some res) :
    ∃ res0, TurnOutcome g turn res0 ∧
      (if turn = 0 then goatTurn g turn inp else tigerTurn g turn inp) = some res0 ∧
      res = (res0.1, res0.2.1, if res0.1 = 1 then 1 - res0.2.2 else res0.2.2) := by
  unfold turnStep at h
  simp only [Option.map_eq_some'] at h
  obtain ⟨res0, h0, rfl⟩ := h
  refine ⟨res0, ?_, h0, rfl⟩
  split at h0
  · exact goatTurn_outcome h0
  · exact tigerTurn_outcome h0

theorem initBoard_histInv (g0 : Game) : HistInv (initBoard g0) := by
  unfold HistInv initBoard
  simp

/-- Every state of a game has well-formed stacks. -/
theorem reachable_histInv {g : Game} {turn : Int} (h : Reachable g turn) : HistInv g := by
  induction h with
  | init g0 => exact initBoard_histInv g0
  | step inp _ hstep ih =>
    obtain ⟨res0, ho, -, rfl⟩ := turnStep_outcome hstep
    exact @turnOutcome_histInv _ _ res0 ih ho

/-! ## Games played through the loop of `startGame` -/

theorem playGame_reachable {g : Game} {turn : Int} (h : Reachable g turn)
    (inputs : List TurnInput) {s : Game × Int} (hp : playGame g turn inputs = some s) :
    Reachable s.1 s.2 := by
  induction inputs generalizing g turn with
  | nil =>
    simp only [playGame, Option.some.injEq] at hp
    subst hp
    exact h
  | cons inp rest ih =>
    simp only [playGame] at hp
    split at hp
    · rename_i g1 turn1 hstep
      unfold startGameStep at hstep
      split at hstep
      · cases hstep
      · simp only [Option.bind_eq_some] at hstep
        obtain ⟨trapped, -, hstep⟩ := hstep
        split at hstep
        · cases hstep
        · simp only [Option.map_eq_some'] at hstep
          obtain ⟨res, hres, hq⟩ := hstep
          split at hq
          · cases hq
          · simp only [Option.some.injEq, Prod.mk.injEq] at hq
            have hreach := Reachable.step inp h hres
            rw [hq.1, hq.2] at hreach
            exact ih hreach hp
    · cases hp

theorem afterPlay_reachable (inputs : List TurnInput) :
    Reachable (afterPlay inputs).1 (afterPlay inputs).2 := by
  unfold afterPlay
  cases hp : playGame (initBoard blankGame) 0 inputs with
  | none => exact Reachable.init blankGame
  | some s => exact playGame_reachable (Reachable.init blankGame) inputs hp

/-! ## Undo then redo (C6) -/

/-- C6: in every state of a game, if `undoMove` returns 1 then a `redoMove` right after it
also returns 1 and restores the state from before the undo: the same board, `goatCount`,
`goatsOnBoard`, `goatsCaptured` and turn, the same depth of both stacks, and the same
snapshot in every entry of both stacks up to their tops. -/
theorem undo_redo_roundtrip (g : Game) (turn : Int) (hr : Reachable g turn)
    (hu : (undoMove g turn).map Prod.fst = some 1) :
    ∃ g1 t1 g2 t2, undoMove g turn = some (1, g1, t1) ∧ redoMove g1 t1 = some (1, g2, t2) ∧
      g2.board = g.board ∧ g2.goatCount = g.goatCount ∧
      g2.goatsOnBoard = g.goatsOnBoard ∧ g2.goatsCaptured = g.goatsCaptured ∧ t2 = turn ∧
      g2.undoTop = g.undoTop ∧ g2.redoTop = g.redoTop ∧
      (∀ k : Int, k ≤ g.undoTop → readSlot g2.undoStack k = readSlot g.undoStack k) ∧
      (∀ k : Int, k ≤ g.redoTop → readSlot g2.redoStack k = readSlot g.redoStack k) := by
  have hinv := reachable_histInv hr
  have h0 : 0 ≤ g.undoTop := by
    by_contra hneg
    rw [undoMove_empty turn (by omega)] at hu
    simp at hu
  obtain ⟨g1, st, hundo, hst, hb1, hc1, ho1, hk1, hus1, hut1, hrt1, hrs1, hrother1⟩ :=
    undoMove_effect turn hinv h0
  have hinv1 : HistInv g1 := @undoMove_histInv g turn (1, g1, st.turn) hinv hundo
  have h01 : 0 ≤ g1.redoTop := by
    rw [hrt1]
    have := hinv.2.1
    omega
  obtain ⟨g2, st2, hredo, hst2, hb2, hc2, ho2, hk2, hrs2, hrt2, hut2, hus2, huother2⟩ :=
    redoMove_effect st.turn hinv1 h01
  rw [hrt1, hrs1] at hst2
  cases hst2
  have hsnap : snapshot g1 st.turn = st := by
    unfold snapshot
    rw [hb1, hc1, ho1, hk1]
  refine ⟨g1, st.turn, g2, turn, hundo, hredo, hb2, hc2, ho2, hk2, rfl, ?_, ?_, ?_, ?_⟩
  · rw [hut2, hut1]; omega
  · rw [hrt2, hrt1]; omega
  · intro k hk
    by_cases hkt : k = g1.undoTop + 1
    · rw [hkt, hus2, hsnap]
      have : g1.undoTop + 1 = g.undoTop := by rw [hut1]; omega
      rw [this, hst]
    · rw [huother2 k hkt, hus1]
  · intro k hk
    rw [hrs2]
    exact hrother1 k (by omega)

theorem first_placement_undone :
    (undoMove (afterPlay [typed (1, 3, 1, 1)]).1 (afterPlay [typed (1, 3, 1, 1)]).2).map
      Prod.fst = some 1 := by
  decide!

/-- C6 after the first goat placement of a game: the undo succeeds and the redo brings the
placement back. -/
theorem undo_redo_roundtrip_witness :
    Reachable (afterPlay [typed (1, 3, 1, 1)]).1 (afterPlay [typed (1, 3, 1, 1)]).2 ∧
    (undoMove (afterPlay [typed (1, 3, 1, 1)]).1 (afterPlay [typed (1, 3, 1, 1)]).2).map
      Prod.fst = some 1 ∧
    ∃ g1 t1 g2 t2,
      undoMove (afterPlay [typed (1, 3, 1, 1)]).1 (afterPlay [typed (1, 3, 1, 1)]).2
        = some (1, g1, t1) ∧
      redoMove g1 t1 = some (1, g2, t2) ∧
      g2.board = (afterPlay [typed (1, 3, 1, 1)]).1.board ∧
      g2.goatCount = (afterPlay [typed (1, 3, 1, 1)]).1.goatCount ∧
      g2.goatsOnBoard = (afterPlay [typed (1, 3, 1, 1)]).1.goatsOnBoard ∧
      g2.goatsCaptured = (afterPlay [typed (1, 3, 1, 1)]).1.goatsCaptured ∧
      t2 = (afterPlay [typed (1, 3, 1, 1)]).2 ∧
      g2.undoTop = (afterPlay [typed (1, 3, 1, 1)]).1.undoTop ∧
      g2.redoTop = (afterPlay [typed (1, 3, 1, 1)]).1.redoTop ∧
      (∀ k : Int, k ≤ (afterPlay [typed (1, 3, 1, 1)]).1.undoTop →
        readSlot g2.undoStack k = readSlot (afterPlay [typed (1, 3, 1, 1)]).1.undoStack k) ∧
      (∀ k : Int, k ≤ (afterPlay [typed (1, 3, 1, 1)]).1.redoTop →
        readSlot g2.redoStack k = readSlot (afterPlay [typed (1, 3, 1, 1)]).1.redoStack k) :=
  ⟨afterPlay_reachable _, first_placement_undone,
    undo_redo_roundtrip _ _ (afterPlay_reachable _) first_placement_undone⟩

/-! ## Undo right after a move (C7) -/

/-- The example game evaluated in one pass: after the 100 moves of `longPlay` the undo
stack is full, the goats are to move and the corner `(0,0)` holds a tiger; the goat move
`(1,1)` to `(0,1)` made next returns 1; the `undoMove` that follows returns 1 and leaves
the corner `(0,0)` Empty and the tigers to move. -/
theorem longPlay_trace :
    ((playGame (initBoard blankGame) 0 longPlay).bind fun s =>
      (turnStep s.1 s.2 (typed (2, 2, 1, 2))).bind fun r =>
        (undoMove r.2.1 r.2.2).map fun u =>
          decide (s.1.undoTop = 99 ∧ s.2 = 0 ∧ readCell s.1.board 0 0 = some TIGER ∧
            r.1 = 1 ∧ u.1 = 1 ∧ readCell u.2.1.board 0 0 = some EMPTY ∧ u.2.2 = 1))
      = some true := by
  decide!

/-- C7, as stated, fails in a state of a game whose undo stack is full.  After the 100
accepted moves of `longPlay` the undo stack holds 100 snapshots, it is the goats' turn and
the corner `(0,0)` holds a tiger.  The goat move `(1,1)` to `(0,1)` is accepted, but its
snapshot is dropped, and the `undoMove` right after it brings back the state before the
100th move: the corner `(0,0)` Empty and the tigers to move. -/
theorem full_stack_undo_misses_move :
    Reachable (afterPlay longPlay).1 (afterPlay longPlay).2 ∧
    (afterPlay longPlay).1.undoTop = 99 ∧
    (afterPlay longPlay).2 = 0 ∧
    readCell (afterPlay longPlay).1.board 0 0 = some TIGER ∧
    (turnStep (afterPlay longPlay).1 (afterPlay longPlay).2 (typed (2, 2, 1, 2))).map Prod.fst
      = some 1 ∧
    ((turnStep (afterPlay longPlay).1 (afterPlay longPlay).2 (typed (2, 2, 1, 2))).bind
      fun r => (undoMove r.2.1 r.2.2).map
        fun u => (u.1, readCell u.2.1.board 0 0, u.2.2)) = some (1, some EMPTY, 1) := by
  have htrace := longPlay_trace
  simp only [Option.bind_eq_some, Option.map_eq_some', decide_eq_true_eq] at htrace
  obtain ⟨s, hs, r, hr, u, hu, h1, h2, h3, h4, h5, h6, h7⟩ := htrace
  have hplay : afterPlay longPlay = s := by
    simp only [afterPlay, hs, Option.getD_some]
  refine ⟨afterPlay_reachable _, ?_, ?_, ?_, ?_, ?_⟩
  · rw [hplay]; exact h1
  · rw [hplay]; exact h2
  · rw [hplay]; exact h3
  · rw [hplay, hr]; simp only [Option.map_some', h4]
  · rw [hplay, hr]
    simp only [Option.some_bind, hu, Option.map_some', h5, h6, h7]

/-- C7, amended: in every state of a game whose undo stack holds fewer than 100 snapshots,
after a move that the turn function accepts (it returns 1 and the turn is switched), an
`undoMove` performed right away returns 1 and restores the board, `goatCount`,
`goatsOnBoard`, `goatsCaptured` and the turn indicator to their values just before that
move. -/
theorem undo_after_move (g : Game) (turn : Int) (inp : TurnInput) (hr : Reachable g turn)
    (hroom : g.undoTop + 1 < 100) (hacc : (turnStep g turn inp).map Prod.fst = some 1) :
    ∃ g' g'', turnStep g turn inp = some (1, g', 1 - turn) ∧
      undoMove g' (1 - turn) = some (1, g'', turn) ∧
      g''.board = g.board ∧ g''.goatCount = g.goatCount ∧
      g''.goatsOnBoard = g.goatsOnBoard ∧ g''.goatsCaptured = g.goatsCaptured := by
  have hinv := reachable_histInv hr
  obtain ⟨res, hres, h1⟩ := map_fst_eq_some hacc
  obtain ⟨res0, ho, -, rfl⟩ := turnStep_outcome hres
  simp only at h1
  have hinv' : HistInv res0.2.1 := @turnOutcome_histInv g turn res0 hinv ho
  rcases ho with ⟨hne, -, -⟩ | ⟨u, -, rfl⟩ | ⟨u, -, rfl⟩ | ⟨-, ht, g1, hs, hh⟩
  · exact absurd h1 hne
  · simp at h1
  · simp at h1
  · obtain ⟨hb, hc, hob, hk, -, -, hcase⟩ := saveState_inv hs
    rcases hcase with ⟨-, htop, hw⟩ | ⟨hfull, -, -⟩
    · have hidx : 0 ≤ g.undoTop + 1 ∧ g.undoTop + 1 < 100 := ⟨by have := hinv.1; omega, hroom⟩
      obtain ⟨s', hw', hrd, -⟩ := writeSlot_spec g.undoStack (snapshot g turn) hidx
      rw [hw] at hw'
      cases hw'
      have h0 : 0 ≤ res0.2.1.undoTop := by
        rw [← hh.2.1, htop]
        exact hidx.1
      obtain ⟨g'', st, hundo, hst, hb2, hc2, ho2, hk2, -⟩ :=
        undoMove_effect (1 - turn) hinv' h0
      rw [← hh.1, ← hh.2.1, htop, hrd] at hst
      cases hst
      refine ⟨res0.2.1, g'', ?_, hundo, hb2, hc2, ho2, hk2⟩
      rw [hres, h1, ht]
      simp
    · omega

theorem first_turn_accepted :
    (turnStep (afterPlay []).1 (afterPlay []).2 (typed (1, 3, 1, 1))).map Prod.fst = some 1 := by
  decide!

/-- C7, amended, at the first goat placement of a game: the undo brings back the opening
state. -/
theorem undo_after_move_witness :
    Reachable (afterPlay []).1 (afterPlay []).2 ∧
    (afterPlay []).1.undoTop + 1 < 100 ∧
    (turnStep (afterPlay []).1 (afterPlay []).2 (typed (1, 3, 1, 1))).map Prod.fst = some 1 ∧
    ∃ g' g'',
      turnStep (afterPlay []).1 (afterPlay []).2 (typed (1, 3, 1, 1))
        = some (1, g', 1 - (afterPlay []).2) ∧
      undoMove g' (1 - (afterPlay []).2) = some (1, g'', (afterPlay []).2) ∧
      g''.board = (afterPlay []).1.board ∧ g''.goatCount = (afterPlay []).1.goatCount ∧
      g''.goatsOnBoard = (afterPlay []).1.goatsOnBoard ∧
      g''.goatsCaptured = (afterPlay []).1.goatsCaptured :=
  ⟨afterPlay_reachable _, by decide, first_turn_accepted,
    undo_after_move _ _ _ (afterPlay_reachable _) (by decide) first_turn_accepted⟩

/-! ## Adjacency is irreflexive and symmetric (C16) -/

/-- C16: for all integers `isAdjacent(r,c,r,c)` is false and
`isAdjacent(r1,c1,r2,c2) = isAdjacent(r2,c2,r1,c1)`; no board is involved. -/
theorem isAdjacent_irrefl_symm :
    (∀ r c : Int, isAdjacent r c r c = false) ∧
    (∀ r1 c1 r2 c2 : Int, isAdjacent r1 c1 r2 c2 = isAdjacent r2 c2 r1 c1) := by
  constructor
  · intro r c
    cases h : isAdjacent r c r c with
    | false => rfl
    | true =>
      have := (isAdjacent_iff r c r c).1 h
      exact absurd rfl this.1
  · intro r1 c1 r2 c2
    rw [Bool.eq_iff_iff, isAdjacent_iff, isAdjacent_iff, abs_sub_comm r1 r2, abs_sub_comm c1 c2]
    constructor
    · rintro ⟨h1, h2, h3⟩
      exact ⟨fun h => h1 h.symm, h2, h3⟩
    · rintro ⟨h1, h2, h3⟩
      exact ⟨fun h => h1 h.symm, h2, h3⟩

/-! ## Writing a cell -/

theorem tigerCount_eq_cellCount (b : Board) : tigerCount b = cellCount b TIGER := rfl

theorem writeCell_inv {b b' : Board} {r c : Int} {v : Char}
    (h : writeCell b r c v = some b') :
    ∃ i j : Fin 5, (i : Int) = r ∧ (j : Int) = c ∧ b' = setCell b i j v := by
  unfold writeCell at h
  split at h
  · rename_i hv
    simp only [Option.some.injEq] at h
    refine ⟨⟨r.toNat, by omega⟩, ⟨c.toNat, by omega⟩, ?_, ?_, h.symm⟩
    · simp only [Int.toNat_of_nonneg hv.1]
    · simp only [Int.toNat_of_nonneg hv.2.2.1]
  · cases h

theorem writeCell_of_valid (b : Board) {r c : Int} (v : Char)
    (h : isValidPosition r c = true) : ∃ b', writeCell b r c v = some b' := by
  rw [isValidPosition_iff] at h
  refine ⟨setCell b ⟨r.toNat, by omega⟩ ⟨c.toNat, by omega⟩ v, ?_⟩
  simp only [writeCell, h, and_self, ↓reduceDIte]

theorem readCell_setCell (b : Board) (i j : Fin 5) (v : Char) (r c : Int) :
    readCell (setCell b i j v) r c =
      if r = (i : Int) ∧ c = (j : Int) then some v else readCell b r c := by
  unfold readCell
  split
  · rename_i hv
    simp only [setCell, Fin.ext_iff]
    have e1 : (r.toNat = (i : Nat)) ↔ r = (i : Int) := by omega
    have e2 : (c.toNat = (j : Nat)) ↔ c = (j : Int) := by omega
    simp only [e1, e2]
    split <;> rfl
  · rename_i hv
    have : ¬ (r = (i : Int) ∧ c = (j : Int)) := by
      rintro ⟨rfl, rfl⟩
      apply hv
      omega
    simp only [this, ↓reduceIte]

/-- A write changes the cell written and no other: the read of the written cell gives the
new value, every other read is as before. -/
theorem readCell_writeCell {b b' : Board} {r c : Int} {v : Char}
    (h : writeCell b r c v = some b') (r' c' : Int) :
    readCell b' r' c' = if r' = r ∧ c' = c then some v else readCell b r' c' := by
  obtain ⟨i, j, rfl, rfl, rfl⟩ := writeCell_inv h
  exact readCell_setCell b i j v r' c'

theorem cellCount_setCell (b : Board) (i j : Fin 5) (v x : Char) :
    cellCount (setCell b i j v) x + (if b i j = x then 1 else 0) =
      cellCount b x + (if v = x then 1 else 0) := by
  unfold cellCount
  rw [Finset.card_filter, Finset.card_filter,
    ← Finset.add_sum_erase Finset.univ _ (Finset.mem_univ ((i, j) : Fin 5 × Fin 5)),
    ← Finset.add_sum_erase Finset.univ _ (Finset.mem_univ ((i, j) : Fin 5 × Fin 5))]
  have hrest : ∑ p ∈ Finset.univ.erase ((i, j) : Fin 5 × Fin 5),
        (if setCell b i j v p.1 p.2 = x then 1 else 0) =
      ∑ p ∈ Finset.univ.erase ((i, j) : Fin 5 × Fin 5), (if b p.1 p.2 = x then 1 else 0) := by
    apply Finset.sum_congr rfl
    intro p hp
    have hne : p ≠ (i, j) := Finset.ne_of_mem_erase hp
    have : ¬ (p.1 = i ∧ p.2 = j) := by
      rintro ⟨h1, h2⟩
      exact hne (Prod.ext h1 h2)
    simp only [setCell, this, ↓reduceIte]
  rw [hrest]
  simp only [setCell, and_self, ↓reduceIte]
  omega

/-- The count of any character after a write, from the count before and the old and new
contents of the cell written. -/
theorem cellCount_writeCell {b b' : Board} {r c : Int} {v : Char}
    (h : writeCell b r c v = some b') :
    ∃ old, readCell b r c = some old ∧
      ∀ x, cellCount b' x + (if old = x then 1 else 0) =
        cellCount b x + (if v = x then 1 else 0) := by
  obtain ⟨i, j, rfl, rfl, rfl⟩ := writeCell_inv h
  exact ⟨b i j, (holds_fin b i j _).2 rfl, fun x => cellCount_setCell b i j v x⟩

/-! ## What an accepted move does -/

theorem saveState_some (g : Game) (t : Int) (hwf : -1 ≤ g.undoTop) :
    ∃ g1, saveState g t = some g1 := by
  unfold saveState
  by_cases hroom : g.undoTop < MAX_HISTORY - 1
  · have hidx : 0 ≤ g.undoTop + 1 ∧ g.undoTop + 1 < 100 := by
      simp only [MAX_HISTORY] at hroom
      omega
    obtain ⟨s', hw, -, -⟩ := writeSlot_spec g.undoStack (snapshot g t) hidx
    exact ⟨{ g with undoTop := g.undoTop + 1, undoStack := s', redoTop := -1 },
      by simp only [hroom, ↓reduceIte, hw, Option.map_some']⟩
  · exact ⟨{ g with redoTop := -1 }, by simp only [hroom, ↓reduceIte, Option.map_some']⟩

theorem placeGoat_rejected {g : Game} (t : Int) {r c : Int}
    (h : ¬ holds g.board r c EMPTY) : placeGoat g t r c = some (0, g, t) := by
  simp [placeGoat, freeCell_eq, h]

/-- The placement branch, when it returns: either the target is not an Empty cell of the
board and nothing has changed, or it is, the state was saved, the goat was written and the
two placement counters were stepped. -/
theorem placeGoat_inv {g : Game} {t r c : Int} {res : Int × Game × Int}
    (h : placeGoat g t r c = some res) :
    (¬ holds g.board r c EMPTY ∧ res = (0, g, t)) ∨
    (holds g.board r c EMPTY ∧ res.1 = 1 ∧ res.2.2 = t ∧
      ∃ g1, saveState g t = some g1 ∧ sameHistory g1 res.2.1 ∧
        writeCell g.board r c GOAT = some res.2.1.board ∧
        res.2.1.goatsOnBoard = g.goatsOnBoard + 1 ∧
        res.2.1.goatCount = g.goatCount - 1 ∧
        res.2.1.goatsCaptured = g.goatsCaptured) := by
  by_cases hfree : holds g.board r c EMPTY
  · right
    unfold placeGoat at h
    rw [freeCell_eq] at h
    simp only [Option.some_bind, hfree, decide_True, ↓reduceIte, Option.bind_eq_some,
      Option.map_eq_some'] at h
    obtain ⟨g1, hs, b1, hw, rfl⟩ := h
    obtain ⟨hb, hc, ho, hk, -⟩ := saveState_inv hs
    rw [hb] at hw
    exact ⟨hfree, rfl, rfl, g1, hs, ⟨rfl, rfl, rfl, rfl⟩, hw, by simp only [ho],
      by simp only [hc], hk⟩
  · left
    rw [placeGoat_rejected t hfree] at h
    cases h
    exact ⟨hfree, rfl⟩

theorem placeGoat_some (g : Game) (t r c : Int) (hwf : -1 ≤ g.undoTop) :
    ∃ res, placeGoat g t r c = some res := by
  by_cases hfree : holds g.board r c EMPTY
  · obtain ⟨g1, hs⟩ := saveState_some g t hwf
    obtain ⟨b1, hw⟩ := writeCell_of_valid g1.board GOAT (holds_valid hfree)
    refine ⟨(1, { g1 with board := b1, goatsOnBoard := g1.goatsOnBoard + 1,
                          goatCount := g1.goatCount - 1 }, t), ?_⟩
    simp [placeGoat, freeCell_eq, hfree, hs, hw]
  · exact ⟨_, placeGoat_rejected t hfree⟩

theorem moveGoat_rejected {g : Game} (t : Int) {r1 c1 r2 c2 : Int}
    (h : ¬ (holds g.board r1 c1 GOAT ∧ holds g.board r2 c2 EMPTY ∧
      isAdjacent r1 c1 r2 c2 = true)) : moveGoat g t r1 c1 r2 c2 = some (0, g, t) := by
  simp only [moveGoat, isValidMoveGoat_eq, h, decide_False, Option.some_bind,
    Bool.false_eq_true, ↓reduceIte]

/-- The movement branch of the goats, when it returns: either the move is not legal and
nothing has changed, or it is, the state was saved and the goat went from source to
destination. -/
theorem moveGoat_inv {g : Game} {t r1 c1 r2 c2 : Int} {res : Int × Game × Int}
    (h : moveGoat g t r1 c1 r2 c2 = some res) :
    (¬ (holds g.board r1 c1 GOAT ∧ holds g.board r2 c2 EMPTY ∧
        isAdjacent r1 c1 r2 c2 = true) ∧ res = (0, g, t)) ∨
    ((holds g.board r1 c1 GOAT ∧ holds g.board r2 c2 EMPTY ∧
        isAdjacent r1 c1 r2 c2 = true) ∧ res.1 = 1 ∧ res.2.2 = t ∧
      ∃ g1 b1, saveState g t = some g1 ∧ sameHistory g1 res.2.1 ∧
        writeCell g.board r1 c1 EMPTY = some b1 ∧
        writeCell b1 r2 c2 GOAT = some res.2.1.board ∧
        res.2.1.goatsOnBoard = g.goatsOnBoard ∧
        res.2.1.goatCount = g.goatCount ∧
        res.2.1.goatsCaptured = g.goatsCaptured) := by
  by_cases hl : holds g.board r1 c1 GOAT ∧ holds g.board r2 c2 EMPTY ∧
      isAdjacent r1 c1 r2 c2 = true
  · right
    unfold moveGoat at h
    rw [isValidMoveGoat_eq] at h
    simp only [Option.some_bind, hl, and_self, decide_True, ↓reduceIte, Option.bind_eq_some,
      Option.map_eq_some'] at h
    obtain ⟨g1, hs, b1, hw1, b2, hw2, rfl⟩ := h
    obtain ⟨hb, hc, ho, hk, -⟩ := saveState_inv hs
    rw [hb] at hw1
    exact ⟨hl, rfl, rfl, g1, b1, hs, ⟨rfl, rfl, rfl, rfl⟩, hw1, hw2, ho, hc, hk⟩
  · left
    rw [moveGoat_rejected t hl] at h
    cases h
    exact ⟨hl, rfl⟩

theorem not_tigerStep_of_jump {b : Board} {r1 c1 r2 c2 : Int}
    (h : tigerJump b r1 c1 r2 c2) : ¬ tigerStep b r1 c1 r2 c2 := by
  rintro ⟨-, -, h1, h2⟩
  obtain ⟨-, -, hs, -⟩ := h
  simp only [List.mem_cons, Prod.mk.injEq, List.mem_singleton, List.not_mem_nil, or_false]
    at hs
  omega

/-- The three results of `isValidMoveTiger` by the kind of the move. -/
theorem isValidMoveTiger_kind (b : Board) (r1 c1 r2 c2 cr cc : Int) :
    isValidMoveTiger b r1 c1 r2 c2 cr cc = some (
      if tigerStep b r1 c1 r2 c2 then (1, cr, cc)
      else if tigerJump b r1 c1 r2 c2 then
        (2, r1 + (r2 - r1).tdiv 2, c1 + (c2 - c1).tdiv 2)
      else (0, cr, cc)) := by
  rw [isValidMoveTiger_eq]
  simp only [tigerStep, tigerJump, ← cAbs_eq_abs, List.mem_cons, Prod.mk.injEq,
    List.mem_singleton, List.not_mem_nil, or_false]
  by_cases hpre : holds b r1 c1 TIGER ∧ holds b r2 c2 EMPTY
  · obtain ⟨hp1, hp2⟩ := hpre
    simp only [hp1, hp2, and_self, ↓reduceIte, true_and]
  · have h1 : ¬ (holds b r1 c1 TIGER ∧ holds b r2 c2 EMPTY ∧
        cAbs (r2 - r1) ≤ 1 ∧ cAbs (c2 - c1) ≤ 1) := fun h => hpre ⟨h.1, h.2.1⟩
    have h2 : ¬ (holds b r1 c1 TIGER ∧ holds b r2 c2 EMPTY ∧
        ((cAbs (r2 - r1) = 2 ∧ cAbs (c2 - c1) = 0) ∨ (cAbs (r2 - r1) = 0 ∧ cAbs (c2 - c1) = 2)
          ∨ (cAbs (r2 - r1) = 2 ∧ cAbs (c2 - c1) = 2)) ∧
        holds b (r1 + (r2 - r1).tdiv 2) (c1 + (c2 - c1).tdiv 2) GOAT) :=
      fun h => hpre ⟨h.1, h.2.1⟩
    simp only [hpre, h1, h2, ↓reduceIte]

theorem moveTiger_rejected {g : Game} (t : Int) {r1 c1 r2 c2 : Int}
    (h1 : ¬ tigerStep g.board r1 c1 r2 c2) (h2 : ¬ tigerJump g.board r1 c1 r2 c2) :
    moveTiger g t r1 c1 r2 c2 = some (0, g, t) := by
  simp [moveTiger, isValidMoveTiger_kind, h1, h2]

/-- The tiger branch, when it returns: nothing has changed for a move that is neither a
step nor a jump; after a step the state was saved and the tiger went from source to
destination; after a jump the midpoint was emptied as well and `goatsCaptured` stepped. -/
theorem moveTiger_inv {g : Game} {t r1 c1 r2 c2 : Int} {res : Int × Game × Int}
    (h : moveTiger g t r1 c1 r2 c2 = some res) :
    (¬ tigerStep g.board r1 c1 r2 c2 ∧ ¬ tigerJump g.board r1 c1 r2 c2 ∧ res = (0, g, t)) ∨
    (tigerStep g.board r1 c1 r2 c2 ∧ res.1 = 1 ∧ res.2.2 = t ∧
      ∃ g1 b1, saveState g t = some g1 ∧ sameHistory g1 res.2.1 ∧
        writeCell g.board r1 c1 EMPTY = some b1 ∧
        writeCell b1 r2 c2 TIGER = some res.2.1.board ∧
        res.2.1.goatsOnBoard = g.goatsOnBoard ∧
        res.2.1.goatCount = g.goatCount ∧
        res.2.1.goatsCaptured = g.goatsCaptured) ∨
    (tigerJump g.board r1 c1 r2 c2 ∧ res.1 = 1 ∧ res.2.2 = t ∧
      ∃ g1 b1 b2, saveState g t = some g1 ∧ sameHistory g1 res.2.1 ∧
        writeCell g.board r1 c1 EMPTY = some b1 ∧
        writeCell b1 r2 c2 TIGER = some b2 ∧
        writeCell b2 (r1 + (r2 - r1).tdiv 2) (c1 + (c2 - c1).tdiv 2) EMPTY
          = some res.2.1.board ∧
        res.2.1.goatsOnBoard = g.goatsOnBoard ∧
        res.2.1.goatCount = g.goatCount ∧
        res.2.1.goatsCaptured = g.goatsCaptured + 1) := by
  by_cases hstep : tigerStep g.board r1 c1 r2 c2
  · right; left
    unfold moveTiger at h
    rw [isValidMoveTiger_kind] at h
    simp only [hstep, ↓reduceIte, Option.some_bind, Option.bind_eq_some,
      Option.map_eq_some'] at h
    obtain ⟨g1, hs, b1, hw1, b2, hw2, rfl⟩ := h
    obtain ⟨hb, hc, ho, hk, -⟩ := saveState_inv hs
    rw [hb] at hw1
    exact ⟨hstep, rfl, rfl, g1, b1, hs, ⟨rfl, rfl, rfl, rfl⟩, hw1, hw2, ho, hc, hk⟩
  · by_cases hjump : tigerJump g.board r1 c1 r2 c2
    · right; right
      unfold moveTiger at h
      rw [isValidMoveTiger_kind] at h
      simp only [hstep, hjump, ↓reduceIte, Option.some_bind, OfNat.ofNat_ne_one,
        Option.bind_eq_some, Option.map_eq_some'] at h
      obtain ⟨g1, hs, b1, hw1, b2, hw2, b3, hw3, rfl⟩ := h
      obtain ⟨hb, hc, ho, hk, -⟩ := saveState_inv hs
      rw [hb] at hw1
      exact ⟨hjump, rfl, rfl, g1, b1, b2, hs, ⟨rfl, rfl, rfl, rfl⟩, hw1, hw2, hw3, ho, hc,
        by simp only [hk]⟩
    · left
      rw [moveTiger_rejected t hstep hjump] at h
      cases h
      exact ⟨hstep, hjump, rfl⟩

theorem moveGoat_some (g : Game) (t r1 c1 r2 c2 : Int) (hwf : -1 ≤ g.undoTop) :
    ∃ res, moveGoat g t r1 c1 r2 c2 = some res := by
  by_cases hl : holds g.board r1 c1 GOAT ∧ holds g.board r2 c2 EMPTY ∧
      isAdjacent r1 c1 r2 c2 = true
  · obtain ⟨g1, hs⟩ := saveState_some g t hwf
    obtain ⟨b1, hw1⟩ := writeCell_of_valid g1.board EMPTY (holds_valid hl.1)
    obtain ⟨b2, hw2⟩ := writeCell_of_valid b1 GOAT (holds_valid hl.2.1)
    refine ⟨(1, { g1 with board := b2 }, t), ?_⟩
    simp [moveGoat, isValidMoveGoat_eq, hl, hs, hw1, hw2]
  · exact ⟨_, moveGoat_rejected t hl⟩

theorem moveTiger_some (g : Game) (t r1 c1 r2 c2 : Int) (hwf : -1 ≤ g.undoTop) :
    ∃ res, moveTiger g t r1 c1 r2 c2 = some res := by
  obtain ⟨g1, hs⟩ := saveState_some g t hwf
  by_cases hstep : tigerStep g.board r1 c1 r2 c2
  · obtain ⟨b1, hw1⟩ := writeCell_of_valid g1.board EMPTY (holds_valid hstep.1)
    obtain ⟨b2, hw2⟩ := writeCell_of_valid b1 TIGER (holds_valid hstep.2.1)
    refine ⟨(1, { g1 with board := b2 }, t), ?_⟩
    simp [moveTiger, isValidMoveTiger_kind, hstep, hs, hw1, hw2]
  · by_cases hjump : tigerJump g.board r1 c1 r2 c2
    · obtain ⟨b1, hw1⟩ := writeCell_of_valid g1.board EMPTY (holds_valid hjump.1)
      obtain ⟨b2, hw2⟩ := writeCell_of_valid b1 TIGER (holds_valid hjump.2.1)
      obtain ⟨b3, hw3⟩ := writeCell_of_valid b2 EMPTY (holds_valid hjump.2.2.2)
      refine ⟨(1, { g1 with board := b3, goatsCaptured := g1.goatsCaptured + 1 }, t), ?_⟩
      simp [moveTiger, isValidMoveTiger_kind, hstep, hjump, hs, hw1, hw2, hw3]
    · exact ⟨_, moveTiger_rejected t hstep hjump⟩

/-! ## From the typed input to the move -/

theorem readCommand_move (g : Game) (t : Int) {tok : List Char}
    (move : Int → Option (Int × Game × Int)) (h : moveToken tok) :
    readCommand g t (some tok) move = move (atoi tok - 1) := by
  obtain ⟨h1, h2, h3, h4⟩ := h
  have h1' : ¬ tok.length ≥ 10 := by omega
  simp only [readCommand, h1', h2, h3, h4, ↓reduceIte, Bool.false_eq_true]

theorem goatTurn_move (g : Game) (t : Int) (inp : TurnInput) {tok : List Char}
    (ht : inp.token = some tok) (h : moveToken tok) :
    goatTurn g t inp =
      if g.goatsOnBoard < 20 then placeGoat g t (atoi tok - 1) (inp.c1 - 1)
      else moveGoat g t (atoi tok - 1) (inp.c1 - 1) (inp.r2 - 1) (inp.c2 - 1) := by
  unfold goatTurn
  rw [ht]
  split
  · exact readCommand_move g t _ h
  · exact readCommand_move g t _ h

theorem tigerTurn_move (g : Game) (t : Int) (inp : TurnInput) {tok : List Char}
    (ht : inp.token = some tok) (h : moveToken tok) :
    tigerTurn g t inp =
      moveTiger g t (atoi tok - 1) (inp.c1 - 1) (inp.r2 - 1) (inp.c2 - 1) := by
  unfold tigerTurn
  rw [ht]
  exact readCommand_move g t _ h

/-! ## Goat placement (C11) -/

/-- C11: in the placement phase `goatTurn` on a row token hands the typed target to the
placement step, and for every state with a valid undo depth and every integer target
`(r,c)` that step returns 1 exactly when `(r,c)` is an Empty cell of the board, and 0
otherwise; when it returns 1 the target holds Goat, every other cell is unchanged,
`goatsOnBoard` is one more, `goatCount` one less and `goatsCaptured` unchanged. -/
theorem goat_placement_spec (g : Game) (t : Int) (hwf : -1 ≤ g.undoTop) :
    (∀ (inp : TurnInput) (tok : List Char), g.goatsOnBoard < 20 → inp.token = some tok →
      moveToken tok → goatTurn g t inp = placeGoat g t (atoi tok - 1) (inp.c1 - 1)) ∧
    (∀ r c : Int, ∃ ret g' t', placeGoat g t r c = some (ret, g', t') ∧
      (ret = 0 ∨ ret = 1) ∧
      (ret = 1 ↔ holds g.board r c EMPTY) ∧
      (ret = 1 →
        holds g'.board r c GOAT ∧
        (∀ r' c' : Int, ¬ (r' = r ∧ c' = c) → readCell g'.board r' c' = readCell g.board r' c') ∧
        g'.goatsOnBoard = g.goatsOnBoard + 1 ∧
        g'.goatCount = g.goatCount - 1 ∧
        g'.goatsCaptured = g.goatsCaptured)) := by
  constructor
  · intro inp tok hphase ht hm
    rw [goatTurn_move g t inp ht hm, if_pos hphase]
  · intro r c
    obtain ⟨⟨ret, g', t'⟩, hres⟩ := placeGoat_some g t r c hwf
    refine ⟨ret, g', t', hres, ?_⟩
    rcases placeGoat_inv hres with ⟨hno, heq⟩ | ⟨hfree, h1, -, g1, -, -, hw, ho, hc, hk⟩
    · simp only [Prod.mk.injEq] at heq
      obtain ⟨rfl, -, -⟩ := heq
      simp [hno]
    · simp only at h1 hw ho hc hk
      subst h1
      refine ⟨Or.inr rfl, ⟨fun _ => hfree, fun _ => rfl⟩, fun _ => ⟨?_, ?_, ho, hc, hk⟩⟩
      · unfold holds
        rw [readCell_writeCell hw]
        simp
      · intro r' c' hne
        rw [readCell_writeCell hw]
        simp only [hne, ↓reduceIte]

/-- C11 at the opening state of a game: every placement is decided by the target cell. -/
theorem goat_placement_spec_witness :
    -1 ≤ (initBoard blankGame).undoTop ∧
    ((∀ (inp : TurnInput) (tok : List Char), (initBoard blankGame).goatsOnBoard < 20 →
      inp.token = some tok → moveToken tok →
      goatTurn (initBoard blankGame) 0 inp
        = placeGoat (initBoard blankGame) 0 (atoi tok - 1) (inp.c1 - 1)) ∧
    (∀ r c : Int, ∃ ret g' t', placeGoat (initBoard blankGame) 0 r c = some (ret, g', t') ∧
      (ret = 0 ∨ ret = 1) ∧
      (ret = 1 ↔ holds (initBoard blankGame).board r c EMPTY) ∧
      (ret = 1 →
        holds g'.board r c GOAT ∧
        (∀ r' c' : Int, ¬ (r' = r ∧ c' = c) →
          readCell g'.board r' c' = readCell (initBoard blankGame).board r' c') ∧
        g'.goatsOnBoard = (initBoard blankGame).goatsOnBoard + 1 ∧
        g'.goatCount = (initBoard blankGame).goatCount - 1 ∧
        g'.goatsCaptured = (initBoard blankGame).goatsCaptured))) :=
  ⟨by decide, goat_placement_spec (initBoard blankGame) 0 (by decide)⟩

/-! ## Piece counts after a move -/

theorem chars_ne : TIGER ≠ EMPTY ∧ TIGER ≠ GOAT ∧ GOAT ≠ EMPTY := by decide

theorem holds_unique {b : Board} {r c : Int} {x y : Char} (hx : holds b r c x)
    (hy : holds b r c y) : x = y := by
  unfold holds at hx hy
  rw [hx] at hy
  exact Option.some.inj hy

/-- A goat placed on an Empty cell: the tigers are as many as before, the goats one more. -/
theorem place_counts {b b1 : Board} {r c : Int} (hfree : holds b r c EMPTY)
    (hw : writeCell b r c GOAT = some b1) :
    cellCount b1 TIGER = cellCount b TIGER ∧ cellCount b1 GOAT = cellCount b GOAT + 1 := by
  obtain ⟨old, hold, hcount⟩ := cellCount_writeCell hw
  have : old = EMPTY := holds_unique hold hfree
  subst this
  have hT := hcount TIGER
  have hG := hcount GOAT
  simp only [EMPTY, TIGER, GOAT, Char.reduceEq, ↓reduceIte] at hT hG
  exact ⟨by simpa [TIGER] using hT, by simpa [GOAT] using hG⟩

/-- A piece `p` moved from its cell to an Empty cell: every count is as before. -/
theorem move_counts {b b1 b2 : Board} {r1 c1 r2 c2 : Int} {p : Char}
    (hsrc : holds b r1 c1 p) (hdst : holds b r2 c2 EMPTY) (hp : p ≠ EMPTY)
    (hw1 : writeCell b r1 c1 EMPTY = some b1) (hw2 : writeCell b1 r2 c2 p = some b2) :
    (∀ x, cellCount b2 x = cellCount b x) ∧
    (∀ r c : Int, readCell b2 r c =
      if r = r2 ∧ c = c2 then some p else if r = r1 ∧ c = c1 then some EMPTY
      else readCell b r c) := by
  have hne : ¬ (r2 = r1 ∧ c2 = c1) := by
    rintro ⟨rfl, rfl⟩
    exact hp (holds_unique hsrc hdst)
  obtain ⟨old1, hold1, hcount1⟩ := cellCount_writeCell hw1
  obtain ⟨old2, hold2, hcount2⟩ := cellCount_writeCell hw2
  have e1 : old1 = p := holds_unique hold1 hsrc
  have e2 : old2 = EMPTY := by
    rw [readCell_writeCell hw1] at hold2
    simp only [hne, ↓reduceIte] at hold2
    exact holds_unique hold2 hdst
  subst e1 e2
  constructor
  · intro x
    have h1 := hcount1 x
    have h2 := hcount2 x
    omega
  · intro r c
    rw [readCell_writeCell hw2, readCell_writeCell hw1]

/-- A capture: the tigers are as many as before, the goats one less, and the three cells
written are the only ones that change. -/
theorem jump_counts {b b1 b2 b3 : Board} {r1 c1 r2 c2 : Int}
    (hj : tigerJump b r1 c1 r2 c2)
    (hw1 : writeCell b r1 c1 EMPTY = some b1) (hw2 : writeCell b1 r2 c2 TIGER = some b2)
    (hw3 : writeCell b2 (r1 + (r2 - r1).tdiv 2) (c1 + (c2 - c1).tdiv 2) EMPTY = some b3) :
    cellCount b3 TIGER = cellCount b TIGER ∧ cellCount b3 GOAT + 1 = cellCount b GOAT ∧
    (∀ r c : Int, readCell b3 r c =
      if r = r1 + (r2 - r1).tdiv 2 ∧ c = c1 + (c2 - c1).tdiv 2 then some EMPTY
      else if r = r2 ∧ c = c2 then some TIGER else if r = r1 ∧ c = c1 then some EMPTY
      else readCell b r c) := by
  obtain ⟨hsrc, hdst, -, hmid⟩ := hj
  obtain ⟨hcount2, hread2⟩ := move_counts hsrc hdst chars_ne.1 hw1 hw2
  obtain ⟨old3, hold3, hcount3⟩ := cellCount_writeCell hw3
  have hm1 : ¬ (r1 + (r2 - r1).tdiv 2 = r1 ∧ c1 + (c2 - c1).tdiv 2 = c1) := by
    rintro ⟨e1, e2⟩
    rw [e1, e2] at hmid
    exact chars_ne.2.1 (holds_unique hsrc hmid)
  have hm2 : ¬ (r1 + (r2 - r1).tdiv 2 = r2 ∧ c1 + (c2 - c1).tdiv 2 = c2) := by
    rintro ⟨e1, e2⟩
    rw [e1, e2] at hmid
    exact chars_ne.2.2 (holds_unique hmid hdst)
  have e3 : old3 = GOAT := by
    rw [hread2] at hold3
    simp only [hm1, hm2, ↓reduceIte] at hold3
    exact holds_unique hold3 hmid
  subst e3
  refine ⟨?_, ?_, ?_⟩
  · have h3 := hcount3 TIGER
    rw [hcount2] at h3
    simp only [EMPTY, TIGER, GOAT, Char.reduceEq, ↓reduceIte] at h3
    simpa [TIGER] using h3
  · have h3 := hcount3 GOAT
    rw [hcount2] at h3
    simp only [EMPTY, GOAT, Char.reduceEq, ↓reduceIte] at h3
    simpa [GOAT] using h3
  · intro r c
    rw [readCell_writeCell hw3, hread2]

/-! ## Tiger moves (C12) -/

theorem tigerStep_of_code {b : Board} {r1 c1 r2 c2 cr cc : Int}
    (h : (isValidMoveTiger b r1 c1 r2 c2 cr cc).map Prod.fst = some 1) :
    tigerStep b r1 c1 r2 c2 := by
  rw [isValidMoveTiger_kind] at h
  by_contra hs
  by_cases hj : tigerJump b r1 c1 r2 c2 <;> simp [hs, hj] at h

theorem tigerJump_of_code {b : Board} {r1 c1 r2 c2 cr cc : Int}
    (h : (isValidMoveTiger b r1 c1 r2 c2 cr cc).map Prod.fst = some 2) :
    tigerJump b r1 c1 r2 c2 := by
  rw [isValidMoveTiger_kind] at h
  by_contra hj
  by_cases hs : tigerStep b r1 c1 r2 c2 <;> simp [hs, hj] at h

/-- C12: in every state with a valid undo depth, a tiger move that `isValidMoveTiger`
classes as a capture (code 2) is applied by `tigerTurn` with return code 1: the number of
Goat cells is one less, the source is Empty, the destination holds Tiger, the midpoint held
Goat and is Empty, no other cell changes, and `goatsCaptured` is one more.  A move classed
as a simple move (code 1) is applied with `goatsCaptured` and the number of Goat cells
unchanged.  `tigerTurn` on a row token applies the typed move. -/
theorem tiger_move_effect (g : Game) (t r1 c1 r2 c2 : Int) (hwf : -1 ≤ g.undoTop) :
    ((isValidMoveTiger g.board r1 c1 r2 c2 (-1) (-1)).map Prod.fst = some 2 →
      ∃ g', moveTiger g t r1 c1 r2 c2 = some (1, g', t) ∧
        cellCount g'.board GOAT + 1 = cellCount g.board GOAT ∧
        holds g.board (r1 + (r2 - r1).tdiv 2) (c1 + (c2 - c1).tdiv 2) GOAT ∧
        holds g'.board (r1 + (r2 - r1).tdiv 2) (c1 + (c2 - c1).tdiv 2) EMPTY ∧
        holds g'.board r1 c1 EMPTY ∧ holds g'.board r2 c2 TIGER ∧
        (∀ r c : Int, ¬ (r = r1 ∧ c = c1) → ¬ (r = r2 ∧ c = c2) →
          ¬ (r = r1 + (r2 - r1).tdiv 2 ∧ c = c1 + (c2 - c1).tdiv 2) →
          readCell g'.board r c = readCell g.board r c) ∧
        g'.goatsCaptured = g.goatsCaptured + 1) ∧
    ((isValidMoveTiger g.board r1 c1 r2 c2 (-1) (-1)).map Prod.fst = some 1 →
      ∃ g', moveTiger g t r1 c1 r2 c2 = some (1, g', t) ∧
        g'.goatsCaptured = g.goatsCaptured ∧
        cellCount g'.board GOAT = cellCount g.board GOAT) ∧
    (∀ (inp : TurnInput) (tok : List Char), inp.token = some tok → moveToken tok →
      tigerTurn g t inp =
        moveTiger g t (atoi tok - 1) (inp.c1 - 1) (inp.r2 - 1) (inp.c2 - 1)) := by
  obtain ⟨⟨ret, g', t'⟩, hres⟩ := moveTiger_some g t r1 c1 r2 c2 hwf
  refine ⟨?_, ?_, fun inp tok ht hm => tigerTurn_move g t inp ht hm⟩
  · intro hcode
    have hj := tigerJump_of_code hcode
    have hns := not_tigerStep_of_jump hj
    rcases moveTiger_inv hres with ⟨-, hnj, -⟩ | ⟨hs, -⟩ | ⟨-, h1, h2, g1, b1, b2, -, -, hw1, hw2, hw3, -, -, hk⟩
    · exact absurd hj hnj
    · exact absurd hs hns
    · simp only at h1 h2 hw3 hk
      subst h1 h2
      obtain ⟨-, hG, hread⟩ := jump_counts hj hw1 hw2 hw3
      have hm1 : ¬ (r1 + (r2 - r1).tdiv 2 = r1 ∧ c1 + (c2 - c1).tdiv 2 = c1) := by
        rintro ⟨e1, e2⟩
        have := hj.2.2.2
        rw [e1, e2] at this
        exact chars_ne.2.1 (holds_unique hj.1 this)
      have hm2 : ¬ (r1 + (r2 - r1).tdiv 2 = r2 ∧ c1 + (c2 - c1).tdiv 2 = c2) := by
        rintro ⟨e1, e2⟩
        have := hj.2.2.2
        rw [e1, e2] at this
        exact chars_ne.2.2 (holds_unique this hj.2.1)
      have hsd : ¬ (r1 = r2 ∧ c1 = c2) := by
        rintro ⟨rfl, rfl⟩
        exact chars_ne.1 (holds_unique hj.1 hj.2.1)
      have hm1' : ¬ (r1 = r1 + (r2 - r1).tdiv 2 ∧ c1 = c1 + (c2 - c1).tdiv 2) :=
        fun h => hm1 ⟨h.1.symm, h.2.symm⟩
      have hm2' : ¬ (r2 = r1 + (r2 - r1).tdiv 2 ∧ c2 = c1 + (c2 - c1).tdiv 2) :=
        fun h => hm2 ⟨h.1.symm, h.2.symm⟩
      refine ⟨g', hres, hG, hj.2.2.2, ?_, ?_, ?_, ?_, hk⟩
      · unfold holds
        rw [hread]
        simp only [and_self, ↓reduceIte]
      · unfold holds
        rw [hread]
        simp only [hm1', hsd, and_self, ↓reduceIte]
      · unfold holds
        rw [hread]
        simp only [hm2', and_self, ↓reduceIte]
      · intro r c n1 n2 n3
        rw [hread]
        simp only [n1, n2, n3, ↓reduceIte]
  · intro hcode
    have hs := tigerStep_of_code hcode
    rcases moveTiger_inv hres with ⟨hns, -, -⟩ | ⟨-, h1, h2, g1, b1, -, -, hw1, hw2, -, -, hk⟩ | ⟨hj, -⟩
    · exact absurd hs hns
    · simp only at h1 h2 hw2 hk
      subst h1 h2
      obtain ⟨hcount, -⟩ := move_counts hs.1 hs.2.1 chars_ne.1 hw1 hw2
      exact ⟨g', hres, hk, hcount GOAT⟩
    · exact absurd hs (not_tigerStep_of_jump hj)

theorem capture_state_wf : -1 ≤ (afterPlay [typed (1, 2, 1, 1)]).1.undoTop := by
  decide!

theorem capture_code :
    (isValidMoveTiger (afterPlay [typed (1, 2, 1, 1)]).1.board 0 0 0 2 (-1) (-1)).map Prod.fst
      = some 2 := by
  decide!

theorem step_code :
    (isValidMoveTiger (afterPlay [typed (1, 2, 1, 1)]).1.board 0 0 1 1 (-1) (-1)).map Prod.fst
      = some 1 := by
  decide!

/-- The scenario of the capture played through `tigerTurn`: after a goat was placed at
`(0,1)`, the input `1 1 1 3` returns 1, leaves `(0,1)` Empty and makes `goatsCaptured` 1. -/
theorem capture_scenario :
    ((tigerTurn (afterPlay [typed (1, 2, 1, 1)]).1 1 (typed (1, 1, 1, 3))).map fun r =>
      decide (r.1 = 1 ∧ readCell r.2.1.board 0 1 = some EMPTY ∧ r.2.1.goatsCaptured = 1))
      = some true := by
  decide!

/-- C12 in the game where a goat was placed at `(0,1)`: the tiger of `(0,0)` moving to
`(0,2)` is a capture and its move to `(1,1)` is a simple move, both applied as stated; the
capture typed into `tigerTurn` empties `(0,1)` and makes `goatsCaptured` 1. -/
theorem tiger_move_effect_witness :
    -1 ≤ (afterPlay [typed (1, 2, 1, 1)]).1.undoTop ∧
    ((isValidMoveTiger (afterPlay [typed (1, 2, 1, 1)]).1.board 0 0 0 2 (-1) (-1)).map Prod.fst
        = some 2 ∧
      ∃ g', moveTiger (afterPlay [typed (1, 2, 1, 1)]).1 1 0 0 0 2 = some (1, g', 1) ∧
        cellCount g'.board GOAT + 1 = cellCount (afterPlay [typed (1, 2, 1, 1)]).1.board GOAT ∧
        holds (afterPlay [typed (1, 2, 1, 1)]).1.board
          (0 + ((0 : Int) - 0).tdiv 2) (0 + ((2 : Int) - 0).tdiv 2) GOAT ∧
        holds g'.board (0 + ((0 : Int) - 0).tdiv 2) (0 + ((2 : Int) - 0).tdiv 2) EMPTY ∧
        holds g'.board 0 0 EMPTY ∧ holds g'.board 0 2 TIGER ∧
        (∀ r c : Int, ¬ (r = 0 ∧ c = 0) → ¬ (r = 0 ∧ c = 2) →
          ¬ (r = 0 + ((0 : Int) - 0).tdiv 2 ∧ c = 0 + ((2 : Int) - 0).tdiv 2) →
          readCell g'.board r c = readCell (afterPlay [typed (1, 2, 1, 1)]).1.board r c) ∧
        g'.goatsCaptured = (afterPlay [typed (1, 2, 1, 1)]).1.goatsCaptured + 1) ∧
    ((isValidMoveTiger (afterPlay [typed (1, 2, 1, 1)]).1.board 0 0 1 1 (-1) (-1)).map Prod.fst
        = some 1 ∧
      ∃ g', moveTiger (afterPlay [typed (1, 2, 1, 1)]).1 1 0 0 1 1 = some (1, g', 1) ∧
        g'.goatsCaptured = (afterPlay [typed (1, 2, 1, 1)]).1.goatsCaptured ∧
        cellCount g'.board GOAT = cellCount (afterPlay [typed (1, 2, 1, 1)]).1.board GOAT) ∧
    ((tigerTurn (afterPlay [typed (1, 2, 1, 1)]).1 1 (typed (1, 1, 1, 3))).map fun r =>
      decide (r.1 = 1 ∧ readCell r.2.1.board 0 1 = some EMPTY ∧ r.2.1.goatsCaptured = 1))
      = some true :=
  ⟨capture_state_wf,
    ⟨capture_code, (tiger_move_effect _ 1 0 0 0 2 capture_state_wf).1 capture_code⟩,
    ⟨step_code, (tiger_move_effect _ 1 0 0 1 1 capture_state_wf).2.1 step_code⟩,
    capture_scenario⟩

/-! ## Rejected moves (C13) -/

/-- C13: in every state and for all integer coordinates, out-of-range ones included, a
placement on a target that is not an Empty cell of the board, a goat move for which
`isValidMoveGoat` is false and a tiger move for which `isValidMoveTiger` returns 0 make the
turn code return 0 with the globals (board, counters, both stacks with their tops) and the
turn indicator unchanged; `goatTurn` and `tigerTurn` on a row token run exactly these
branches on the typed coordinates. -/
theorem rejected_move_atomic (g : Game) (t : Int) :
    (∀ r c : Int, ¬ holds g.board r c EMPTY → placeGoat g t r c = some (0, g, t)) ∧
    (∀ r1 c1 r2 c2 : Int, isValidMoveGoat g.board r1 c1 r2 c2 = some false →
      moveGoat g t r1 c1 r2 c2 = some (0, g, t)) ∧
    (∀ r1 c1 r2 c2 : Int,
      (isValidMoveTiger g.board r1 c1 r2 c2 (-1) (-1)).map Prod.fst = some 0 →
      moveTiger g t r1 c1 r2 c2 = some (0, g, t)) ∧
    (∀ (inp : TurnInput) (tok : List Char), inp.token = some tok → moveToken tok →
      goatTurn g t inp =
        (if g.goatsOnBoard < 20 then placeGoat g t (atoi tok - 1) (inp.c1 - 1)
         else moveGoat g t (atoi tok - 1) (inp.c1 - 1) (inp.r2 - 1) (inp.c2 - 1)) ∧
      tigerTurn g t inp =
        moveTiger g t (atoi tok - 1) (inp.c1 - 1) (inp.r2 - 1) (inp.c2 - 1)) := by
  refine ⟨fun r c h => placeGoat_rejected t h, ?_, ?_, ?_⟩
  · intro r1 c1 r2 c2 h
    simp only [moveGoat, h, Option.some_bind, Bool.false_eq_true, ↓reduceIte]
  · intro r1 c1 r2 c2 h
    simp only [Option.map_eq_some'] at h
    obtain ⟨out, hout, h0⟩ := h
    simp [moveTiger, hout, h0]
  · intro inp tok ht hm
    exact ⟨goatTurn_move g t inp ht hm, tigerTurn_move g t inp ht hm⟩

/-- C13 at the opening state: a placement on the tiger of the corner `(0,0)`, a placement
off the board, a goat move and a tiger move off the board are all rejected. -/
theorem rejected_move_atomic_witness :
    (¬ holds (initBoard blankGame).board 0 0 EMPTY ∧
      placeGoat (initBoard blankGame) 0 0 0 = some (0, initBoard blankGame, 0)) ∧
    (¬ holds (initBoard blankGame).board 7 (-3) EMPTY ∧
      placeGoat (initBoard blankGame) 0 7 (-3) = some (0, initBoard blankGame, 0)) ∧
    (isValidMoveGoat (initBoard blankGame).board 0 0 0 1 = some false ∧
      moveGoat (initBoard blankGame) 0 0 0 0 1 = some (0, initBoard blankGame, 0)) ∧
    ((isValidMoveTiger (initBoard blankGame).board 0 0 (-1) 0 (-1) (-1)).map Prod.fst = some 0 ∧
      moveTiger (initBoard blankGame) 1 0 0 (-1) 0 = some (0, initBoard blankGame, 1)) :=
  ⟨⟨by decide, (rejected_move_atomic _ 0).1 0 0 (by decide)⟩,
   ⟨by decide, (rejected_move_atomic _ 0).1 7 (-3) (by decide)⟩,
   ⟨by decide, (rejected_move_atomic _ 0).2.1 0 0 0 1 (by decide)⟩,
   ⟨by decide, (rejected_move_atomic _ 1).2.2.1 0 0 (-1) 0 (by decide)⟩⟩

/-! ## Command tokens (C17) -/

theorem cToLower_eq (ch : Char) : cToLower ch = ch.toLower := rfl

theorem strcasecmpEq_iff (a b : List Char) :
    strcasecmpEq a b = true ↔ a.map Char.toLower = b.map Char.toLower := by
  have : cToLower = Char.toLower := funext cToLower_eq
  simp only [strcasecmpEq, this, decide_eq_true_eq]

/-- The three branches of the command dispatch, by the lower-case form of the token. -/
theorem readCommand_command (g : Game) (t : Int) (tok : List Char)
    (move : Int → Option (Int × Game × Int)) :
    (tok.map Char.toLower = ['u'] →
      readCommand g t (some tok) move = (undoMove g t).map fun u => (0, u.2.1, u.2.2)) ∧
    (tok.map Char.toLower = ['r'] →
      readCommand g t (some tok) move = (redoMove g t).map fun u => (0, u.2.1, u.2.2)) ∧
    (tok.map Char.toLower = ['e', 'x', 'i', 't'] →
      readCommand g t (some tok) move = some (-1, g, t)) := by
  refine ⟨?_, ?_, ?_⟩
  · intro h
    have hlen : tok.length = 1 := by
      have := congrArg List.length h
      simpa using this
    have hu : strcasecmpEq tok ['u'] = true := (strcasecmpEq_iff _ _).2 h
    simp [readCommand, hlen, hu]
  · intro h
    have hlen : tok.length = 1 := by
      have := congrArg List.length h
      simpa using this
    have hu : strcasecmpEq tok ['u'] = false := by
      rw [← Bool.not_eq_true, strcasecmpEq_iff, h]
      decide
    have hr : strcasecmpEq tok ['r'] = true := (strcasecmpEq_iff _ _).2 h
    simp [readCommand, hlen, hu, hr]
  · intro h
    have hlen : tok.length = 4 := by
      have := congrArg List.length h
      simpa using this
    have hu : strcasecmpEq tok ['u'] = false := by
      rw [← Bool.not_eq_true, strcasecmpEq_iff, h]
      decide
    have hr : strcasecmpEq tok ['r'] = false := by
      rw [← Bool.not_eq_true, strcasecmpEq_iff, h]
      decide
    have he : strcasecmpEq tok ['e', 'x', 'i', 't'] = true := (strcasecmpEq_iff _ _).2 h
    simp [readCommand, hlen, hu, hr, he]

theorem one_placement_state :
    (afterPlay [typed (1, 3, 1, 1)]).1.undoTop = 0 ∧ (afterPlay [typed (1, 3, 1, 1)]).2 = 1 ∧
    ((undoMove (afterPlay [typed (1, 3, 1, 1)]).1 1).map fun u =>
      decide (u.1 = 1 ∧ u.2.1.undoTop = -1)) = some true := by
  decide!

/-- C17, as stated, fails for the word `undo`.  After the first goat placement the undo
stack holds one snapshot and `undoMove` would pop it, but `tigerTurn` on the token `undo`
(whatever the integers read after it) reads the word as the row number 0 and rejects the
move: it returns 0 with the state, the undo stack included, unchanged. -/
theorem undo_word_is_no_command :
    (afterPlay [typed (1, 3, 1, 1)]).1.undoTop = 0 ∧
    ((undoMove (afterPlay [typed (1, 3, 1, 1)]).1 1).map fun u =>
      decide (u.1 = 1 ∧ u.2.1.undoTop = -1)) = some true ∧
    ∀ c1 r2 c2 : Int,
      tigerTurn (afterPlay [typed (1, 3, 1, 1)]).1 1
          { token := some ['u', 'n', 'd', 'o'], c1 := c1, r2 := r2, c2 := c2 }
        = some (0, (afterPlay [typed (1, 3, 1, 1)]).1, 1) := by
  refine ⟨one_placement_state.1, one_placement_state.2.2, ?_⟩
  intro c1 r2 c2
  have hm : moveToken ['u', 'n', 'd', 'o'] := by decide
  rw [tigerTurn_move _ _ _ rfl hm]
  have hrow : atoi ['u', 'n', 'd', 'o'] - 1 = -1 := by decide
  rw [hrow]
  have hoff : ∀ c : Int, isValidPosition (-1) c = false := by
    intro c
    simp [isValidPosition]
  apply moveTiger_rejected
  · intro h
    exact not_holds_of_invalid TIGER (hoff _) h.1
  · intro h
    exact not_holds_of_invalid TIGER (hoff _) h.1

/-- C17, amended: a token that equals `u`, `r` or `exit` ignoring letter case is
recognised before any move interpretation, in every state: `goatTurn` (in both phases) and
`tigerTurn` perform `undoMove` respectively `redoMove` and return 0, or return the exit
code -1 with the state unchanged; the integers of the input play no part. -/
theorem command_tokens (g : Game) (t : Int) (inp : TurnInput) (tok : List Char)
    (ht : inp.token = some tok) :
    (tok.map Char.toLower = ['u'] →
      goatTurn g t inp = ((undoMove g t).map fun u => (0, u.2.1, u.2.2)) ∧
      tigerTurn g t inp = ((undoMove g t).map fun u => (0, u.2.1, u.2.2))) ∧
    (tok.map Char.toLower = ['r'] →
      goatTurn g t inp = ((redoMove g t).map fun u => (0, u.2.1, u.2.2)) ∧
      tigerTurn g t inp = ((redoMove g t).map fun u => (0, u.2.1, u.2.2))) ∧
    (tok.map Char.toLower = ['e', 'x', 'i', 't'] →
      goatTurn g t inp = some (-1, g, t) ∧ tigerTurn g t inp = some (-1, g, t)) := by
  refine ⟨fun h => ⟨?_, ?_⟩, fun h => ⟨?_, ?_⟩, fun h => ⟨?_, ?_⟩⟩
  · unfold goatTurn
    rw [ht]
    split <;> exact (readCommand_command g t tok _).1 h
  · unfold tigerTurn
    rw [ht]
    exact (readCommand_command g t tok _).1 h
  · unfold goatTurn
    rw [ht]
    split <;> exact (readCommand_command g t tok _).2.1 h
  · unfold tigerTurn
    rw [ht]
    exact (readCommand_command g t tok _).2.1 h
  · unfold goatTurn
    rw [ht]
    split <;> exact (readCommand_command g t tok _).2.2 h
  · unfold tigerTurn
    rw [ht]
    exact (readCommand_command g t tok _).2.2 h

/-- C17, amended, at the tokens `U`, `r` and `Exit` after the first goat placement. -/
theorem command_tokens_witness :
    (['U'].map Char.toLower = ['u'] ∧
      goatTurn (afterPlay [typed (1, 3, 1, 1)]).1 1
          { token := some ['U'], c1 := 2, r2 := 3, c2 := 4 }
        = ((undoMove (afterPlay [typed (1, 3, 1, 1)]).1 1).map fun u => (0, u.2.1, u.2.2)) ∧
      tigerTurn (afterPlay [typed (1, 3, 1, 1)]).1 1
          { token := some ['U'], c1 := 2, r2 := 3, c2 := 4 }
        = ((undoMove (afterPlay [typed (1, 3, 1, 1)]).1 1).map fun u => (0, u.2.1, u.2.2))) ∧
    (['r'].map Char.toLower = ['r'] ∧
      goatTurn (afterPlay [typed (1, 3, 1, 1)]).1 1
          { token := some ['r'], c1 := 2, r2 := 3, c2 := 4 }
        = ((redoMove (afterPlay [typed (1, 3, 1, 1)]).1 1).map fun u => (0, u.2.1, u.2.2)) ∧
      tigerTurn (afterPlay [typed (1, 3, 1, 1)]).1 1
          { token := some ['r'], c1 := 2, r2 := 3, c2 := 4 }
        = ((redoMove (afterPlay [typed (1, 3, 1, 1)]).1 1).map fun u => (0, u.2.1, u.2.2))) ∧
    (['E', 'x', 'i', 't'].map Char.toLower = ['e', 'x', 'i', 't'] ∧
      goatTurn (afterPlay [typed (1, 3, 1, 1)]).1 1
          { token := some ['E', 'x', 'i', 't'], c1 := 2, r2 := 3, c2 := 4 }
        = some (-1, (afterPlay [typed (1, 3, 1, 1)]).1, 1) ∧
      tigerTurn (afterPlay [typed (1, 3, 1, 1)]).1 1
          { token := some ['E', 'x', 'i', 't'], c1 := 2, r2 := 3, c2 := 4 }
        = some (-1, (afterPlay [typed (1, 3, 1, 1)]).1, 1)) :=
  ⟨⟨by decide, (command_tokens _ 1 { token := some ['U'], c1 := 2, r2 := 3, c2 := 4 }
      ['U'] rfl).1 (by decide)⟩,
   ⟨by decide, (command_tokens _ 1 { token := some ['r'], c1 := 2, r2 := 3, c2 := 4 }
      ['r'] rfl).2.1 (by decide)⟩,
   ⟨by decide, (command_tokens _ 1 { token := some ['E', 'x', 'i', 't'], c1 := 2, r2 := 3, c2 := 4 }
      ['E', 'x', 'i', 't'] rfl).2.2 (by decide)⟩⟩

/-! ## A tiger that has just moved is not trapped (C18) -/

/-- A tiger next to an Empty cell of the board makes `areTigersTrapped` return false. -/
theorem not_trapped_of_free_neighbour {b : Board} {r c r' c' : Int}
    (ht : holds b r c TIGER) (he : holds b r' c' EMPTY)
    (h1 : |r' - r| ≤ 1) (h2 : |c' - c| ≤ 1) : areTigersTrapped b = some false := by
  obtain ⟨res, hres, hiff⟩ := areTigersTrapped_char b
  rw [hres]
  cases hr : res with
  | false => rfl
  | true =>
    exfalso
    have htr := (hiff.1 hr).2 r c ht
    have hne : ¬ (r' - r = 0 ∧ c' - c = 0) := by
      rintro ⟨e1, e2⟩
      have e3 : r' = r := by omega
      have e4 : c' = c := by omega
      subst e3 e4
      exact chars_ne.1 (holds_unique ht he)
    have := (htr (r' - r) (c' - c) h1 h2 hne).1
    apply this
    have e1 : r + (r' - r) = r' := by omega
    have e2 : c + (c' - c) = c' := by omega
    rw [e1, e2]
    exact he

theorem code_cases {b : Board} {r1 c1 r2 c2 cr cc : Int}
    (h : (isValidMoveTiger b r1 c1 r2 c2 cr cc).map Prod.fst ≠ some 0) :
    tigerStep b r1 c1 r2 c2 ∨ tigerJump b r1 c1 r2 c2 := by
  rw [isValidMoveTiger_kind] at h
  by_cases hs : tigerStep b r1 c1 r2 c2
  · exact Or.inl hs
  · by_cases hj : tigerJump b r1 c1 r2 c2
    · exact Or.inr hj
    · simp [hs, hj] at h

/-- C18: in every state with a valid undo depth, every tiger move for which
`isValidMoveTiger` returns a non-zero code (simple move or capture) is applied by the tiger
turn with return code 1, and `areTigersTrapped` returns false on the board after it: the
cell the tiger left, or the midpoint it emptied, is an Empty neighbour of the tiger.  So a
capture that raises `goatsCaptured` never leaves the tigers trapped. -/
theorem tiger_move_not_trapped (g : Game) (t r1 c1 r2 c2 : Int) (hwf : -1 ≤ g.undoTop)
    (hcode : (isValidMoveTiger g.board r1 c1 r2 c2 (-1) (-1)).map Prod.fst ≠ some 0) :
    ∃ g', moveTiger g t r1 c1 r2 c2 = some (1, g', t) ∧
      areTigersTrapped g'.board = some false := by
  obtain ⟨⟨ret, g', t'⟩, hres⟩ := moveTiger_some g t r1 c1 r2 c2 hwf
  rcases moveTiger_inv hres with ⟨hns, hnj, -⟩ | ⟨hs, h1, h2, g1, b1, -, -, hw1, hw2, -⟩ | ⟨hj, h1, h2, g1, b1, b2, -, -, hw1, hw2, hw3, -⟩
  · rcases code_cases hcode with h | h
    · exact absurd h hns
    · exact absurd h hnj
  · simp only at h1 h2 hw2
    subst h1 h2
    refine ⟨g', hres, ?_⟩
    obtain ⟨-, hread⟩ := move_counts hs.1 hs.2.1 chars_ne.1 hw1 hw2
    have hsd : ¬ (r1 = r2 ∧ c1 = c2) := by
      rintro ⟨rfl, rfl⟩
      exact chars_ne.1 (holds_unique hs.1 hs.2.1)
    have htig : holds g'.board r2 c2 TIGER := by
      unfold holds
      rw [hread]
      simp only [and_self, ↓reduceIte]
    have hemp : holds g'.board r1 c1 EMPTY := by
      unfold holds
      rw [hread]
      simp only [hsd, and_self, ↓reduceIte]
    have a1 : |r1 - r2| ≤ 1 := by rw [abs_sub_comm]; exact hs.2.2.1
    have a2 : |c1 - c2| ≤ 1 := by rw [abs_sub_comm]; exact hs.2.2.2
    exact not_trapped_of_free_neighbour htig hemp a1 a2
  · simp only at h1 h2 hw3
    subst h1 h2
    refine ⟨g', hres, ?_⟩
    obtain ⟨-, -, hread⟩ := jump_counts hj hw1 hw2 hw3
    have hm2 : ¬ (r2 = r1 + (r2 - r1).tdiv 2 ∧ c2 = c1 + (c2 - c1).tdiv 2) := by
      rintro ⟨e1, e2⟩
      have := hj.2.2.2
      rw [← e1, ← e2] at this
      exact chars_ne.2.2 (holds_unique this hj.2.1)
    have htig : holds g'.board r2 c2 TIGER := by
      unfold holds
      rw [hread]
      simp only [hm2, and_self, ↓reduceIte]
    have hemp : holds g'.board (r1 + (r2 - r1).tdiv 2) (c1 + (c2 - c1).tdiv 2) EMPTY := by
      unfold holds
      rw [hread]
      simp only [and_self, ↓reduceIte]
    have hshape := hj.2.2.1
    simp only [← cAbs_eq_abs, List.mem_cons, Prod.mk.injEq, List.mem_singleton,
      List.not_mem_nil, or_false] at hshape
    have hr : cAbs (r2 - r1) = 2 ∨ cAbs (r2 - r1) = 0 := by omega
    have hc : cAbs (c2 - c1) = 2 ∨ cAbs (c2 - c1) = 0 := by omega
    have a1 : |r1 + (r2 - r1).tdiv 2 - r2| ≤ 1 := by
      rw [abs_le]
      rcases tdiv_two_cases hr with ⟨a, a'⟩ | ⟨a, a'⟩ | ⟨a, a'⟩ <;> omega
    have a2 : |c1 + (c2 - c1).tdiv 2 - c2| ≤ 1 := by
      rw [abs_le]
      rcases tdiv_two_cases hc with ⟨a, a'⟩ | ⟨a, a'⟩ | ⟨a, a'⟩ <;> omega
    exact not_trapped_of_free_neighbour htig hemp a1 a2

theorem capture_code_ne_zero :
    (isValidMoveTiger (afterPlay [typed (1, 2, 1, 1)]).1.board 0 0 0 2 (-1) (-1)).map Prod.fst
      ≠ some 0 := by
  rw [capture_code]
  decide

/-- C18 at the capture of the goat placed at `(0,1)` by the tiger of `(0,0)`. -/
theorem tiger_move_not_trapped_witness :
    -1 ≤ (afterPlay [typed (1, 2, 1, 1)]).1.undoTop ∧
    (isValidMoveTiger (afterPlay [typed (1, 2, 1, 1)]).1.board 0 0 0 2 (-1) (-1)).map Prod.fst
      ≠ some 0 ∧
    ∃ g', moveTiger (afterPlay [typed (1, 2, 1, 1)]).1 1 0 0 0 2 = some (1, g', 1) ∧
      areTigersTrapped g'.board = some false :=
  ⟨capture_state_wf, capture_code_ne_zero,
    tiger_move_not_trapped _ 1 0 0 0 2 capture_state_wf capture_code_ne_zero⟩

/-! ## The invariant of a game -/

theorem goodState_congr {s s' : GameState} (hb : s'.board = s.board)
    (hc : s'.goatCount = s.goatCount) (ho : s'.goatsOnBoard = s.goatsOnBoard)
    (hk : s'.goatsCaptured = s.goatsCaptured) (h : GoodState s) : GoodState s' := by
  unfold GoodState at h ⊢
  rw [hb, hc, ho, hk]
  exact h

theorem goodState_snapshot {g : Game} (t : Int) (h : GoodState (snapshot g 0)) :
    GoodState (snapshot g t) :=
  @goodState_congr (snapshot g 0) (snapshot g t) rfl rfl rfl rfl h

/-- The slots of a stack up to its top stay consistent when a consistent snapshot is
written on top. -/
theorem slots_good_push {s s' : Fin 100 → GameState} {top : Int} {v : GameState}
    (hgood : ∀ k : Int, 0 ≤ k → k ≤ top → ∃ x, readSlot s k = some x ∧ GoodState x)
    (hv : GoodState v) (hr : readSlot s' (top + 1) = some v)
    (hother : ∀ k : Int, k ≠ top + 1 → readSlot s' k = readSlot s k) :
    ∀ k : Int, 0 ≤ k → k ≤ top + 1 → ∃ x, readSlot s' k = some x ∧ GoodState x := by
  intro k h0 hk
  by_cases hkt : k = top + 1
  · rw [hkt]
    exact ⟨v, hr, hv⟩
  · rw [hother k hkt]
    exact hgood k h0 (by omega)

theorem saveState_gameInv {g g1 : Game} {t : Int} (hinv : GameInv g)
    (h : saveState g t = some g1) : GameInv g1 := by
  obtain ⟨hh, hlive, hundo, hredo⟩ := hinv
  obtain ⟨hb, hc, ho, hk, hrs, hrt, hcase⟩ := saveState_inv h
  refine ⟨saveState_histInv hh h,
    @goodState_congr (snapshot g 0) (snapshot g1 0) hb hc ho hk hlive, ?_, ?_⟩
  · rcases hcase with ⟨hlt, htop, hw⟩ | ⟨-, htop, hst⟩
    · have hidx : 0 ≤ g.undoTop + 1 ∧ g.undoTop + 1 < 100 := ⟨by have := hh.1; omega, by omega⟩
      obtain ⟨s', hw', hrd, hother⟩ := writeSlot_spec g.undoStack (snapshot g t) hidx
      rw [hw] at hw'
      cases hw'
      rw [htop]
      exact slots_good_push hundo (goodState_snapshot t hlive) hrd hother
    · rw [htop, hst]
      exact hundo
  · intro k h0 hk'
    rw [hrt] at hk'
    omega

theorem undoMove_gameInv {g : Game} {t : Int} {u : Int × Game × Int} (hinv : GameInv g)
    (h : undoMove g t = some u) : GameInv u.2.1 := by
  obtain ⟨hh, hlive, hundo, hredo⟩ := hinv
  by_cases h0 : 0 ≤ g.undoTop
  · obtain ⟨g1, st, he, hst, hb, hc, ho, hk, hus, hut, hrt, hrs, hrother⟩ :=
      undoMove_effect t hh h0
    have hhist := @undoMove_histInv g t u hh h
    rw [he] at h
    cases h
    obtain ⟨x, hx, hgx⟩ := hundo g.undoTop h0 le_rfl
    rw [hst] at hx
    cases hx
    refine ⟨hhist, @goodState_congr _ (snapshot g1 0) hb hc ho hk hgx, ?_, ?_⟩
    · intro k hk0 hkt
      simp only [hus, hut] at hkt ⊢
      exact hundo k hk0 (by omega)
    · simp only [hrt]
      exact slots_good_push hredo (goodState_snapshot t hlive) hrs hrother
  · rw [undoMove_empty t (by omega)] at h
    cases h
    exact ⟨hh, hlive, hundo, hredo⟩

theorem redoMove_gameInv {g : Game} {t : Int} {u : Int × Game × Int} (hinv : GameInv g)
    (h : redoMove g t = some u) : GameInv u.2.1 := by
  obtain ⟨hh, hlive, hundo, hredo⟩ := hinv
  by_cases h0 : 0 ≤ g.redoTop
  · obtain ⟨g1, st, he, hst, hb, hc, ho, hk, hrs, hrt, hut, hus, huother⟩ :=
      redoMove_effect t hh h0
    have hhist := @redoMove_histInv g t u hh h
    rw [he] at h
    cases h
    obtain ⟨x, hx, hgx⟩ := hredo g.redoTop h0 le_rfl
    rw [hst] at hx
    cases hx
    refine ⟨hhist, @goodState_congr _ (snapshot g1 0) hb hc ho hk hgx, ?_, ?_⟩
    · simp only [hut]
      exact slots_good_push hundo (goodState_snapshot t hlive) hus huother
    · intro k hk0 hkt
      simp only [hrs, hrt] at hkt ⊢
      exact hredo k hk0 (by omega)
  · rw [redoMove_empty t (by omega)] at h
    cases h
    exact ⟨hh, hlive, hundo, hredo⟩

/-- After an accepted move the invariant holds when the new live state is consistent: the
history is the one `saveState` left. -/
theorem accepted_gameInv {g g1 g' : Game} {t : Int} (hinv : GameInv g)
    (hs : saveState g t = some g1) (hh : sameHistory g1 g')
    (hlive : GoodState (snapshot g' 0)) : GameInv g' := by
  obtain ⟨h1, -, h3, h4⟩ := saveState_gameInv hinv hs
  obtain ⟨e1, e2, e3, e4⟩ := hh
  unfold GameInv HistInv at *
  rw [← e1, ← e2, ← e3, ← e4]
  exact ⟨h1, hlive, h3, h4⟩

/-! ## The counts after each kind of move -/

theorem place_good {g g' : Game} {r c : Int} (hlive : GoodState (snapshot g 0))
    (hphase : g.goatsOnBoard < 20) (hfree : holds g.board r c EMPTY)
    (hw : writeCell g.board r c GOAT = some g'.board)
    (ho : g'.goatsOnBoard = g.goatsOnBoard + 1) (hc : g'.goatCount = g.goatCount - 1)
    (hk : g'.goatsCaptured = g.goatsCaptured) : GoodState (snapshot g' 0) := by
  obtain ⟨hT, hG⟩ := place_counts hfree hw
  unfold GoodState snapshot at hlive ⊢
  simp only [tigerCount_eq_cellCount] at hlive ⊢
  rw [hT, hG, ho, hc, hk]
  omega

theorem goatMove_good {g g' : Game} {r1 c1 r2 c2 : Int} {b1 : Board}
    (hlive : GoodState (snapshot g 0))
    (hsrc : holds g.board r1 c1 GOAT) (hdst : holds g.board r2 c2 EMPTY)
    (hw1 : writeCell g.board r1 c1 EMPTY = some b1)
    (hw2 : writeCell b1 r2 c2 GOAT = some g'.board)
    (ho : g'.goatsOnBoard = g.goatsOnBoard) (hc : g'.goatCount = g.goatCount)
    (hk : g'.goatsCaptured = g.goatsCaptured) : GoodState (snapshot g' 0) := by
  obtain ⟨hcount, -⟩ := move_counts hsrc hdst chars_ne.2.2 hw1 hw2
  unfold GoodState snapshot at hlive ⊢
  simp only [tigerCount_eq_cellCount] at hlive ⊢
  rw [hcount, hcount, ho, hc, hk]
  exact hlive

theorem tigerStep_good {g g' : Game} {r1 c1 r2 c2 : Int} {b1 : Board}
    (hlive : GoodState (snapshot g 0)) (hs : tigerStep g.board r1 c1 r2 c2)
    (hw1 : writeCell g.board r1 c1 EMPTY = some b1)
    (hw2 : writeCell b1 r2 c2 TIGER = some g'.board)
    (ho : g'.goatsOnBoard = g.goatsOnBoard) (hc : g'.goatCount = g.goatCount)
    (hk : g'.goatsCaptured = g.goatsCaptured) : GoodState (snapshot g' 0) := by
  obtain ⟨hcount, -⟩ := move_counts hs.1 hs.2.1 chars_ne.1 hw1 hw2
  unfold GoodState snapshot at hlive ⊢
  simp only [tigerCount_eq_cellCount] at hlive ⊢
  rw [hcount, hcount, ho, hc, hk]
  exact hlive

theorem tigerJump_good {g g' : Game} {r1 c1 r2 c2 : Int} {b1 b2 : Board}
    (hlive : GoodState (snapshot g 0)) (hj : tigerJump g.board r1 c1 r2 c2)
    (hw1 : writeCell g.board r1 c1 EMPTY = some b1)
    (hw2 : writeCell b1 r2 c2 TIGER = some b2)
    (hw3 : writeCell b2 (r1 + (r2 - r1).tdiv 2) (c1 + (c2 - c1).tdiv 2) EMPTY
      = some g'.board)
    (ho : g'.goatsOnBoard = g.goatsOnBoard) (hc : g'.goatCount = g.goatCount)
    (hk : g'.goatsCaptured = g.goatsCaptured + 1) : GoodState (snapshot g' 0) := by
  obtain ⟨hT, hG, -⟩ := jump_counts hj hw1 hw2 hw3
  unfold GoodState snapshot at hlive ⊢
  simp only [tigerCount_eq_cellCount] at hlive ⊢
  rw [hT, ho, hc, hk]
  omega

/-! ## The invariant along a game -/

/-- A property of the globals that holds before the command dispatch and after an undo, a
redo and whatever the move branch returns, holds after the dispatch. -/
theorem readCommand_preserves {P : Game → Prop} {g : Game} {t : Int}
    {token : Option (List Char)} {move : Int → Option (Int × Game × Int)}
    {res : Int × Game × Int} (hP : P g)
    (hundo : ∀ u, undoMove g t = some u → P u.2.1)
    (hredo : ∀ u, redoMove g t = some u → P u.2.1)
    (hmove : ∀ r1 res, move r1 = some res → P res.2.1)
    (h : readCommand g t token move = some res) : P res.2.1 := by
  unfold readCommand at h
  cases token with
  | none =>
    cases h
    exact hP
  | some input =>
    simp only at h
    split at h
    · cases h
    · split at h
      · simp only [Option.map_eq_some'] at h
        obtain ⟨u, hu, rfl⟩ := h
        exact hundo u hu
      · split at h
        · simp only [Option.map_eq_some'] at h
          obtain ⟨u, hu, rfl⟩ := h
          exact hredo u hu
        · split at h
          · cases h
            exact hP
          · exact hmove _ _ h

theorem placeGoat_gameInv {g : Game} {t r c : Int} {res : Int × Game × Int}
    (hinv : GameInv g) (hphase : g.goatsOnBoard < 20)
    (h : placeGoat g t r c = some res) : GameInv res.2.1 := by
  rcases placeGoat_inv h with ⟨-, rfl⟩ | ⟨hfree, -, -, g1, hs, hh, hw, ho, hc, hk⟩
  · exact hinv
  · exact accepted_gameInv hinv hs hh (place_good hinv.2.1 hphase hfree hw ho hc hk)

theorem moveGoat_gameInv {g : Game} {t r1 c1 r2 c2 : Int} {res : Int × Game × Int}
    (hinv : GameInv g) (h : moveGoat g t r1 c1 r2 c2 = some res) : GameInv res.2.1 := by
  rcases moveGoat_inv h with ⟨-, rfl⟩ | ⟨hl, -, -, g1, b1, hs, hh, hw1, hw2, ho, hc, hk⟩
  · exact hinv
  · exact accepted_gameInv hinv hs hh (goatMove_good hinv.2.1 hl.1 hl.2.1 hw1 hw2 ho hc hk)

theorem moveTiger_gameInv {g : Game} {t r1 c1 r2 c2 : Int} {res : Int × Game × Int}
    (hinv : GameInv g) (h : moveTiger g t r1 c1 r2 c2 = some res) : GameInv res.2.1 := by
  rcases moveTiger_inv h with ⟨-, -, rfl⟩ | ⟨hs, -, -, g1, b1, hsv, hh, hw1, hw2, ho, hc, hk⟩ | ⟨hj, -, -, g1, b1, b2, hsv, hh, hw1, hw2, hw3, ho, hc, hk⟩
  · exact hinv
  · exact accepted_gameInv hinv hsv hh (tigerStep_good hinv.2.1 hs hw1 hw2 ho hc hk)
  · exact accepted_gameInv hinv hsv hh (tigerJump_good hinv.2.1 hj hw1 hw2 hw3 ho hc hk)

theorem turnStep_gameInv {g : Game} {turn : Int} {inp : TurnInput} {res : Int × Game × Int}
    (hinv : GameInv g) (h : turnStep g turn inp = some res) : GameInv res.2.1 := by
  unfold turnStep at h
  simp only [Option.map_eq_some'] at h
  obtain ⟨res0, h0, rfl⟩ := h
  simp only
  split at h0
  · unfold goatTurn at h0
    split at h0
    · rename_i hphase
      exact readCommand_preserves hinv (fun u hu => undoMove_gameInv hinv hu)
        (fun u hu => redoMove_gameInv hinv hu)
        (fun _ _ hm => placeGoat_gameInv hinv hphase hm) h0
    · exact readCommand_preserves hinv (fun u hu => undoMove_gameInv hinv hu)
        (fun u hu => redoMove_gameInv hinv hu)
        (fun _ _ hm => moveGoat_gameInv hinv hm) h0
  · unfold tigerTurn at h0
    exact readCommand_preserves hinv (fun u hu => undoMove_gameInv hinv hu)
      (fun u hu => redoMove_gameInv hinv hu)
      (fun _ _ hm => moveTiger_gameInv hinv hm) h0

/-- The board `initBoard` leaves, whatever the board before. -/
theorem initBoard_board (g0 : Game) :
    (initBoard g0).board =
      fun i j => if (i = 0 ∨ i = 4) ∧ (j = 0 ∨ j = 4) then TIGER else EMPTY := by
  funext i j
  fin_cases i <;> fin_cases j <;> rfl

theorem initBoard_gameInv (g0 : Game) : GameInv (initBoard g0) := by
  refine ⟨initBoard_histInv g0, ?_, ?_, ?_⟩
  · unfold GoodState snapshot
    simp only [initBoard_board]
    refine ⟨by decide, ?_, ?_, ?_, ?_⟩
    · have : cellCount (fun i j : Fin 5 =>
          if (i = 0 ∨ i = 4) ∧ (j = 0 ∨ j = 4) then TIGER else EMPTY) GOAT = 0 := by decide
      rw [this]
      simp [initBoard]
    · simp [initBoard]
    · simp [initBoard]
    · simp [initBoard]
  · intro k h0 hk
    have : (initBoard g0).undoTop = -1 := rfl
    omega
  · intro k h0 hk
    have : (initBoard g0).redoTop = -1 := rfl
    omega

/-- Every state of a game satisfies the invariant. -/
theorem reachable_gameInv {g : Game} {turn : Int} (h : Reachable g turn) : GameInv g := by
  induction h with
  | init g0 => exact initBoard_gameInv g0
  | step inp _ hstep ih => exact turnStep_gameInv ih hstep

/-! ## Piece conservation (C14) -/

/-- C14: in every state of a game the number of board cells holding Goat plus
`goatsCaptured` plus `goatCount` equals 20. -/
theorem piece_conservation (g : Game) (turn : Int) (hr : Reachable g turn) :
    (cellCount g.board GOAT : Int) + g.goatsCaptured + g.goatCount = 20 :=
  (reachable_gameInv hr).2.1.2.1

/-- C14 after a goat was placed at `(0,1)` and captured by the tiger of `(0,0)`. -/
theorem piece_conservation_witness :
    Reachable (afterPlay [typed (1, 2, 1, 1), typed (1, 1, 1, 3)]).1
      (afterPlay [typed (1, 2, 1, 1), typed (1, 1, 1, 3)]).2 ∧
    (cellCount (afterPlay [typed (1, 2, 1, 1), typed (1, 1, 1, 3)]).1.board GOAT : Int)
      + (afterPlay [typed (1, 2, 1, 1), typed (1, 1, 1, 3)]).1.goatsCaptured
      + (afterPlay [typed (1, 2, 1, 1), typed (1, 1, 1, 3)]).1.goatCount = 20 :=
  ⟨afterPlay_reachable _, piece_conservation _ _ (afterPlay_reachable _)⟩

/-! ## Bounded stacks (C15) -/

theorem stackReachable_histInv {g : Game} (h : StackReachable g) : HistInv g := by
  induction h with
  | init g0 => exact initBoard_histInv g0
  | save t _ hs ih => exact saveState_histInv ih hs
  | undo t _ hu ih => exact undoMove_histInv ih hu
  | redo t _ hu ih => exact redoMove_histInv ih hu
  | turn t inp _ hstep ih =>
    obtain ⟨res0, ho, -, rfl⟩ := turnStep_outcome hstep
    exact @turnOutcome_histInv _ _ res0 ih ho

theorem reachable_stackReachable {g : Game} {turn : Int} (h : Reachable g turn) :
    StackReachable g := by
  induction h with
  | init g0 => exact StackReachable.init g0
  | step inp _ hstep ih => exact StackReachable.turn _ inp ih hstep

/-- C15: in every state reached from `initBoard` by any sequence of `saveState`,
`undoMove`, `redoMove` and turns, both stacks hold between 0 and 100 snapshots
(`-1 ≤ undoTop ≤ 99`, `-1 ≤ redoTop ≤ 99`), and `saveState`, `undoMove` and `redoMove`
return from it without an access outside the arrays. -/
theorem stacks_bounded (g : Game) (h : StackReachable g) :
    (-1 ≤ g.undoTop ∧ g.undoTop ≤ 99 ∧ -1 ≤ g.redoTop ∧ g.redoTop ≤ 99) ∧
    ∀ t : Int, (∃ g1, saveState g t = some g1) ∧ (∃ u, undoMove g t = some u) ∧
      (∃ u, redoMove g t = some u) := by
  have hinv := stackReachable_histInv h
  obtain ⟨hu, hrd, hsum⟩ := hinv
  refine ⟨⟨hu, by omega, hrd, by omega⟩, fun t => ⟨saveState_some g t hu, ?_, ?_⟩⟩
  · by_cases h0 : 0 ≤ g.undoTop
    · obtain ⟨g1, st, he, -⟩ := undoMove_effect t ⟨hu, hrd, hsum⟩ h0
      exact ⟨_, he⟩
    · exact ⟨_, undoMove_empty t (by omega)⟩
  · by_cases h0 : 0 ≤ g.redoTop
    · obtain ⟨g1, st, he, -⟩ := redoMove_effect t ⟨hu, hrd, hsum⟩ h0
      exact ⟨_, he⟩
    · exact ⟨_, redoMove_empty t (by omega)⟩

/-- C15 after the 100 moves of the example game, where the undo stack is full. -/
theorem stacks_bounded_witness :
    StackReachable (afterPlay longPlay).1 ∧
    ((-1 ≤ (afterPlay longPlay).1.undoTop ∧ (afterPlay longPlay).1.undoTop ≤ 99 ∧
      -1 ≤ (afterPlay longPlay).1.redoTop ∧ (afterPlay longPlay).1.redoTop ≤ 99) ∧
    ∀ t : Int, (∃ g1, saveState (afterPlay longPlay).1 t = some g1) ∧
      (∃ u, undoMove (afterPlay longPlay).1 t = some u) ∧
      (∃ u, redoMove (afterPlay longPlay).1 t = some u)) :=
  ⟨reachable_stackReachable (afterPlay_reachable _),
    stacks_bounded _ (reachable_stackReachable (afterPlay_reachable _))⟩

/-! ## Four tigers (C19) -/

/-- C19: `initBoard` leaves the four corners `(0,0)`, `(0,4)`, `(4,0)`, `(4,4)` holding
Tiger and the other 21 cells Empty, whatever the globals before, and every state of a game
has exactly 4 Tiger cells on the board. -/
theorem tiger_count_invariant :
    (∀ (g0 : Game) (r c : Int), isValidPosition r c = true →
      readCell (initBoard g0).board r c =
        some (if (r, c) ∈ [((0 : Int), (0 : Int)), (0, 4), (4, 0), (4, 4)] then TIGER
              else EMPTY)) ∧
    (∀ (g : Game) (turn : Int), Reachable g turn → tigerCount g.board = 4) := by
  constructor
  · intro g0 r c hv
    obtain ⟨x, hx⟩ := readCell_of_valid (initBoard g0).board hv
    obtain ⟨i, j, rfl, rfl, hij⟩ := holds_cases hx
    rw [hx, ← hij, initBoard_board]
    fin_cases i <;> fin_cases j <;> decide
  · intro g turn hr
    exact (reachable_gameInv hr).2.1.1

/-- C19 at the corner `(4,4)` and the centre of the opening board, and after a capture. -/
theorem tiger_count_invariant_witness :
    (isValidPosition 4 4 = true ∧
      readCell (initBoard blankGame).board 4 4 =
        some (if ((4 : Int), (4 : Int)) ∈ [((0 : Int), (0 : Int)), (0, 4), (4, 0), (4, 4)]
              then TIGER else EMPTY)) ∧
    (isValidPosition 2 2 = true ∧
      readCell (initBoard blankGame).board 2 2 =
        some (if ((2 : Int), (2 : Int)) ∈ [((0 : Int), (0 : Int)), (0, 4), (4, 0), (4, 4)]
              then TIGER else EMPTY)) ∧
    (Reachable (afterPlay [typed (1, 2, 1, 1), typed (1, 1, 1, 3)]).1
        (afterPlay [typed (1, 2, 1, 1), typed (1, 1, 1, 3)]).2 ∧
      tigerCount (afterPlay [typed (1, 2, 1, 1), typed (1, 1, 1, 3)]).1.board = 4) :=
  ⟨⟨by decide, tiger_count_invariant.1 blankGame 4 4 (by decide)⟩,
   ⟨by decide, tiger_count_invariant.1 blankGame 2 2 (by decide)⟩,
   ⟨afterPlay_reachable _, tiger_count_invariant.2 _ _ (afterPlay_reachable _)⟩⟩

/-! ## Counter consistency (C20) -/

/-- C20: in every state of a game `goatsOnBoard + goatCount = 20`, `0 ≤ goatCount ≤ 20`
and `0 ≤ goatsCaptured ≤ goatsOnBoard`; so the goat turn is in the placement phase
(`goatsOnBoard < 20`) exactly when `goatCount > 0`, and `goatCount` is never negative. -/
theorem counter_consistency (g : Game) (turn : Int) (hr : Reachable g turn) :
    g.goatsOnBoard + g.goatCount = 20 ∧ 0 ≤ g.goatCount ∧ g.goatCount ≤ 20 ∧
    0 ≤ g.goatsCaptured ∧ g.goatsCaptured ≤ g.goatsOnBoard ∧
    (g.goatsOnBoard < 20 ↔ g.goatCount > 0) := by
  obtain ⟨-, hG, hsum, hc, hk⟩ := (reachable_gameInv hr).2.1
  simp only [snapshot] at hG hsum hc hk
  have hnat : (0 : Int) ≤ (cellCount g.board GOAT : Int) := Int.natCast_nonneg _
  refine ⟨hsum, hc, ?_, hk, ?_, ?_⟩ <;> omega

/-- C20 after a goat was placed at `(0,1)` and captured by the tiger of `(0,0)`. -/
theorem counter_consistency_witness :
    Reachable (afterPlay [typed (1, 2, 1, 1), typed (1, 1, 1, 3)]).1
      (afterPlay [typed (1, 2, 1, 1), typed (1, 1, 1, 3)]).2 ∧
    ((afterPlay [typed (1, 2, 1, 1), typed (1, 1, 1, 3)]).1.goatsOnBoard
        + (afterPlay [typed (1, 2, 1, 1), typed (1, 1, 1, 3)]).1.goatCount = 20 ∧
      0 ≤ (afterPlay [typed (1, 2, 1, 1), typed (1, 1, 1, 3)]).1.goatCount ∧
      (afterPlay [typed (1, 2, 1, 1), typed (1, 1, 1, 3)]).1.goatCount ≤ 20 ∧
      0 ≤ (afterPlay [typed (1, 2, 1, 1), typed (1, 1, 1, 3)]).1.goatsCaptured ∧
      (afterPlay [typed (1, 2, 1, 1), typed (1, 1, 1, 3)]).1.goatsCaptured
        ≤ (afterPlay [typed (1, 2, 1, 1), typed (1, 1, 1, 3)]).1.goatsOnBoard ∧
      ((afterPlay [typed (1, 2, 1, 1), typed (1, 1, 1, 3)]).1.goatsOnBoard < 20 ↔
        (afterPlay [typed (1, 2, 1, 1), typed (1, 1, 1, 3)]).1.goatCount > 0)) :=
  ⟨afterPlay_reachable _, counter_consistency _ _ (afterPlay_reachable _)⟩

end BaghChal
